import Mathlib

/-!
# mud-mux: the multiplexing engine of `src/main.go`

A shallow embedding of the `MUX` methods of `src/main.go`.

* A `net.Conn` held in `m.clients` is represented by its identity, a `Handle`.
  Go compares two `net.Conn` interface values with `==` by identity, which is the
  only thing the code ever does with a client besides calling `Write` and `Close`.
* The upstream connection `m.mudConn` is a separate object (it comes from `net.Dial`,
  clients come from `listener.Accept`); its open/closed flag is the field `mudClosed`.
* Every call the code makes on a connection or on the logger is recorded, in order,
  as an `Event`.  Results of calls whose outcome the code inspects (`Read`, `Write`)
  are supplied by the caller of the embedded function as explicit arguments.
-/

namespace MudMux

/-- Identity of a client `net.Conn`. -/
abbrev Handle := Nat

/-- A `[]byte` value. -/
abbrev Bytes := List Nat

/-- The `error` returned by a `Read`: `isNetError` is the `ok` of the type assertion
`err.(net.Error)`, `timeout` is the result of `netErr.Timeout()`. -/
structure GoError where
  isNetError : Bool
  timeout : Bool
  deriving DecidableEq, Repr

/-- The test `netErr, ok := err.(net.Error); ok && netErr.Timeout()` of lines 65 and 100. -/
def GoError.isTimeout (e : GoError) : Bool := e.isNetError && e.timeout

/-- Result of one `Read(buf)`: `n, nil` with `buf[:n] = data`, or a non-nil error. -/
inductive ReadResult where
  | chunk (data : Bytes)
  | err (e : GoError)
  deriving DecidableEq, Repr

/-- The format strings passed to `m.logger`, with their arguments. -/
inductive LogMsg where
  | mudToClients (data : Bytes)
  | errReadingMUD
  | newClient (conn : Handle)
  | clientDisconnected (conn : Handle)
  | errReadingClient
  | clientToMud (data : Bytes)
  | errSendingMud
  | errBroadcasting
  | shuttingDown
  | errClosingMud
  | acceptError
  deriving DecidableEq, Repr

/-- One call made by the code on a connection or on the logger. -/
inductive Event where
  | clientWrite (conn : Handle) (data : Bytes)
  | clientClose (conn : Handle)
  | mudWrite (data : Bytes)
  | mudClose
  | log (msg : LogMsg)
  deriving DecidableEq, Repr

/-- The fields of `MUX` the engine mutates, for a `MUX` on which `connectToMUD` has
succeeded (`start` returns before anything else runs otherwise): the slice `m.clients`
and the open/closed flag of the connection `m.mudConn`. -/
structure MUX where
  clients : List Handle
  mudClosed : Bool
  deriving DecidableEq, Repr

/-- The client list set up by `NewMUX`: `make([]net.Conn, 0)`; the upstream connection
has just been dialled by `connectToMUD`. -/
def NewMUX : MUX := { clients := [], mudClosed := false }

/-- How a loop around a blocking `Read` stands once the supplied read results are used up:
it has executed `return`, or it is blocked in the next `Read`. -/
inductive LoopStatus where
  | returned
  | blocked
  deriving DecidableEq, Repr

/-! ## Projections of an event trace -/

/-- The `client.Write` calls of a trace, in order. -/
def clientWrites : List Event → List (Handle × Bytes)
  | [] => []
  | Event.clientWrite c d :: t => (c, d) :: clientWrites t
  | _ :: t => clientWrites t

/-- The `Close` calls on client connections of a trace, in order. -/
def clientCloses : List Event → List Handle
  | [] => []
  | Event.clientClose c :: t => c :: clientCloses t
  | _ :: t => clientCloses t

/-- The `m.mudConn.Write` calls of a trace, in order. -/
def mudWrites : List Event → List Bytes
  | [] => []
  | Event.mudWrite d :: t => d :: mudWrites t
  | _ :: t => mudWrites t

/-- Number of `m.mudConn.Close` calls of a trace. -/
def mudCloses : List Event → Nat
  | [] => 0
  | Event.mudClose :: t => mudCloses t + 1
  | _ :: t => mudCloses t

/-- The bytes a client has been sent: the concatenation of the data of the
`Write` calls on it. -/
def delivered (h : Handle) : List Event → Bytes
  | [] => []
  | Event.clientWrite c d :: t => if c = h then d ++ delivered h t else delivered h t
  | _ :: t => delivered h t

/-! ## `handleClient`: registration and deferred cleanup -/

/-- Lines 77-79: `m.clients = append(m.clients, clientConn)` under the mutex. -/
def registerClient (m : MUX) (clientConn : Handle) : MUX :=
  { m with clients := m.clients ++ [clientConn] }

/-- Lines 84-89: the `range` loop over `m.clients`, standing at index `i` with `rest` still
to visit; on the first `c == clientConn` the list becomes
`append(m.clients[:i], m.clients[i+1:]...)` and the loop breaks. -/
def removeScan (all : List Handle) (clientConn : Handle) : List Handle → Nat → List Handle
  | [], _ => all
  | c :: rest, i =>
    if c = clientConn then all.take i ++ all.drop (i + 1)
    else removeScan all clientConn rest (i + 1)

/-- Lines 83-90: the deregistration of the deferred function. -/
def removeClient (m : MUX) (clientConn : Handle) : MUX :=
  { m with clients := removeScan m.clients clientConn m.clients 0 }

/-- Lines 81-92: the deferred function of `handleClient`: close the client connection,
remove it from `m.clients`, log. -/
def deferredCleanup (m : MUX) (clientConn : Handle) : MUX × List Event :=
  (removeClient m clientConn,
   [Event.clientClose clientConn, Event.log (LogMsg.clientDisconnected clientConn)])

/-! ## `broadcastToClients` and `disconnectAllClients` -/

/-- Lines 118-123: the `range` loop of `broadcastToClients`, standing at index `i`;
`fails i` tells whether the `Write` to the member at index `i` returns an error. -/
def broadcastLoop (data : Bytes) (fails : Nat → Bool) : List Handle → Nat → List Event
  | [], _ => []
  | client :: rest, i =>
    if fails i then
      Event.clientWrite client data :: Event.log LogMsg.errBroadcasting
        :: broadcastLoop data fails rest (i + 1)
    else
      Event.clientWrite client data :: broadcastLoop data fails rest (i + 1)

/-- Lines 115-124: `broadcastToClients(data)`. -/
def broadcastToClients (m : MUX) (data : Bytes) (fails : Nat → Bool) : MUX × List Event :=
  (m, broadcastLoop data fails m.clients 0)

/-- Lines 170-172: the `range` loop of `disconnectAllClients`. -/
def closeLoop : List Handle → List Event
  | [] => []
  | client :: rest => Event.clientClose client :: closeLoop rest

/-- Lines 167-174: `disconnectAllClients()`; `m.clients = nil` is the empty list. -/
def disconnectAllClients (m : MUX) : MUX × List Event :=
  ({ m with clients := [] }, closeLoop m.clients)

/-! ## `handleClient`: the relay loop and the whole method -/

/-- Lines 97-112: the relay loop of `handleClient` fed with the results of the successive
`clientConn.Read` calls; `k` counts the `m.mudConn.Write` calls made so far and `wfail k`
tells whether the call number `k` returns an error. -/
def relayLoop (wfail : Nat → Bool) : List ReadResult → Nat → List Event × LoopStatus
  | [], _ => ([], LoopStatus.blocked)
  | ReadResult.err e :: rest, k =>
    if e.isTimeout then relayLoop wfail rest k
    else ([Event.log LogMsg.errReadingClient], LoopStatus.returned)
  | ReadResult.chunk data :: rest, k =>
    if wfail k then
      ([Event.log (LogMsg.clientToMud data), Event.mudWrite data,
        Event.log LogMsg.errSendingMud], LoopStatus.returned)
    else
      (Event.log (LogMsg.clientToMud data) :: Event.mudWrite data
        :: (relayLoop wfail rest (k + 1)).1, (relayLoop wfail rest (k + 1)).2)

/-- What a method has done once its read results are used up. -/
structure Outcome where
  mux : MUX
  trace : List Event
  status : LoopStatus
  deriving DecidableEq, Repr

/-- Lines 76-113: `handleClient(clientConn)` run without interference from other goroutines.
The deferred function runs when, and only when, the loop executes `return`. -/
def handleClient (m : MUX) (clientConn : Handle) (reads : List ReadResult)
    (wfail : Nat → Bool) : Outcome :=
  match (relayLoop wfail reads 0).2 with
  | LoopStatus.returned =>
    { mux := (deferredCleanup (registerClient m clientConn) clientConn).1
      trace := Event.log (LogMsg.newClient clientConn) :: (relayLoop wfail reads 0).1
        ++ (deferredCleanup (registerClient m clientConn) clientConn).2
      status := LoopStatus.returned }
  | LoopStatus.blocked =>
    { mux := registerClient m clientConn
      trace := Event.log (LogMsg.newClient clientConn) :: (relayLoop wfail reads 0).1
      status := LoopStatus.blocked }

/-! ## `readFromMUD` -/

/-- Lines 60-74: `readFromMUD()` fed with the results of the successive `m.mudConn.Read`
calls; `k` counts the broadcasts made so far and `fails k i` tells whether, in broadcast
number `k`, the `Write` to the member at index `i` returns an error. -/
def readFromMUD (fails : Nat → Nat → Bool) : List ReadResult → Nat → MUX → Outcome
  | [], _, m => { mux := m, trace := [], status := LoopStatus.blocked }
  | ReadResult.err e :: rest, k, m =>
    if e.isTimeout then readFromMUD fails rest k m
    else { mux := m, trace := [Event.log LogMsg.errReadingMUD], status := LoopStatus.returned }
  | ReadResult.chunk data :: rest, k, m =>
    { mux := (readFromMUD fails rest (k + 1) (broadcastToClients m data (fails k)).1).mux
      trace := Event.log (LogMsg.mudToClients data) :: (broadcastToClients m data (fails k)).2
        ++ (readFromMUD fails rest (k + 1) (broadcastToClients m data (fails k)).1).trace
      status := (readFromMUD fails rest (k + 1) (broadcastToClients m data (fails k)).1).status }

/-! ## The shutdown sequence -/

/-- The call `m.mudConn.Close()`: the connection is closed afterwards; the call returns an
error when the connection was closed already (package `net`) or when `closeFails`. -/
def mudConnClose (m : MUX) (closeFails : Bool) : MUX × Bool :=
  ({ m with mudClosed := true }, m.mudClosed || closeFails)

/-- Lines 148-152: the shutdown sequence of the goroutine started by `start`, up to but not
including `os.Exit(0)`. -/
def shutdown (m : MUX) (closeFails : Bool) : MUX × List Event :=
  ((mudConnClose (disconnectAllClients m).1 closeFails).1,
   Event.log LogMsg.shuttingDown :: (disconnectAllClients m).2 ++ Event.mudClose ::
     (if (mudConnClose (disconnectAllClients m).1 closeFails).2
      then [Event.log LogMsg.errClosingMud] else []))

/-! ## Sequences of registry operations -/

/-- One atomic operation on the client list: the registration of `handleClient`
(lines 77-79), its deferred cleanup (lines 81-92), or one `broadcastToClients`. -/
inductive Op where
  | register (conn : Handle)
  | terminate (conn : Handle)
  | broadcast (data : Bytes)
  deriving DecidableEq, Repr

/-- Effect of one operation; every client `Write` of a broadcast succeeds. -/
def applyOp (m : MUX) : Op → MUX × List Event
  | Op.register conn => (registerClient m conn, [Event.log (LogMsg.newClient conn)])
  | Op.terminate conn => deferredCleanup m conn
  | Op.broadcast data => broadcastToClients m data (fun _ => false)

/-- Effect of a sequence of operations, with the trace of all calls made. -/
def runOps : MUX → List Op → MUX × List Event
  | m, [] => (m, [])
  | m, op :: rest =>
    ((runOps (applyOp m op).1 rest).1, (applyOp m op).2 ++ (runOps (applyOp m op).1 rest).2)

/-- Every registration in the sequence registers a handle that is not in the client list at
that moment. -/
def FreshRegistrations : MUX → List Op → Bool
  | _, [] => true
  | m, Op.register conn :: rest =>
    decide (conn ∉ m.clients) && FreshRegistrations (applyOp m (Op.register conn)).1 rest
  | m, op :: rest => FreshRegistrations (applyOp m op).1 rest

/-- The handles of the sessions that have connected and not yet terminated, in connection
order: a registration counts when no termination of its handle follows it. -/
def liveSessions : List Op → List Handle
  | [] => []
  | Op.register conn :: rest =>
    if Op.terminate conn ∈ rest then liveSessions rest else conn :: liveSessions rest
  | _ :: rest => liveSessions rest

/-- The bytes client `h` is due: the chunks broadcast while `h` is registered, in broadcast
order; `registered` tells whether `h` is registered before the first operation. -/
def dueBytes (h : Handle) : Bool → List Op → Bytes
  | _, [] => []
  | registered, Op.register conn :: rest => dueBytes h (registered || decide (conn = h)) rest
  | registered, Op.terminate conn :: rest => dueBytes h (registered && !decide (conn = h)) rest
  | registered, Op.broadcast data :: rest =>
    (if registered then data else []) ++ dueBytes h registered rest

/-! ## Reference descriptions of the two relay directions -/

/-- The read results that precede the first error that is not a timeout. -/
def beforeFatal : List ReadResult → List ReadResult
  | [] => []
  | ReadResult.err e :: rest => if e.isTimeout then ReadResult.err e :: beforeFatal rest else []
  | ReadResult.chunk data :: rest => ReadResult.chunk data :: beforeFatal rest

/-- The chunks among some read results, in order. -/
def chunksOf : List ReadResult → List Bytes
  | [] => []
  | ReadResult.chunk data :: rest => data :: chunksOf rest
  | ReadResult.err _ :: rest => chunksOf rest

/-- The elements of `chunks` up to and including the first one whose write fails, where
`wfail k` is the fate of the write number `k`, counting from `k`. -/
def throughFirstFailure (wfail : Nat → Bool) : List Bytes → Nat → List Bytes
  | [], _ => []
  | data :: rest, k => if wfail k then [data] else data :: throughFirstFailure wfail rest (k + 1)

/-- The chunks logged by `readFromMUD` on line 71, one per call of `broadcastToClients`. -/
def broadcastLogs : List Event → List Bytes
  | [] => []
  | Event.log (LogMsg.mudToClients d) :: t => d :: broadcastLogs t
  | _ :: t => broadcastLogs t

/-- The member writes of successive broadcasts of `chunks` to the same client list: for each
chunk in turn, one write per entry of the list, in list order. -/
def broadcastsTo (clients : List Handle) : List Bytes → List (Handle × Bytes)
  | [] => []
  | data :: rest => clients.map (fun c => (c, data)) ++ broadcastsTo clients rest

/-- Whether some read result is an error that is not a timeout. -/
def hasFatal : List ReadResult → Bool
  | [] => false
  | ReadResult.err e :: rest => !e.isTimeout || hasFatal rest
  | ReadResult.chunk _ :: rest => hasFatal rest

/-! ## The goroutines of `start`, step by step

`start` runs the accept loop, one `readFromMUD` goroutine, the shutdown goroutine and one
`handleClient` goroutine per accepted connection.  A `Goroutine` value names the statement
a goroutine stands before, with its local variables; `Goroutine.run` executes that statement;
a schedule (a list of goroutine indices) interleaves them.  `m.mu.Lock()` can only be
executed while no goroutine holds the mutex. -/

/-- Results of the calls whose outcome the environment decides: `wfail conn k` is the fate
of upstream write number `k` of the session of `conn`, `fails k i` the fate of the write to
the member at index `i` in broadcast number `k`, `closeFails` whether the first
`m.mudConn.Close()` reports an error. -/
structure Env where
  wfail : Handle → Nat → Bool
  fails : Nat → Nat → Bool
  closeFails : Bool

/-- A goroutine, by the statement it stands before. -/
inductive Goroutine where
  /-- Line 157, `listener.Accept()`: the results still to come, `none` for an error. -/
  | accepting (pending : List (Option (Handle × List ReadResult)))
  /-- Line 77, `m.mu.Lock()` of `handleClient`. -/
  | hcLock (conn : Handle) (reads : List ReadResult)
  /-- Line 78, the append. -/
  | hcAppend (conn : Handle) (reads : List ReadResult)
  /-- Line 79, `m.mu.Unlock()`. -/
  | hcUnlock (conn : Handle) (reads : List ReadResult)
  /-- Line 94, the log line. -/
  | hcLogNew (conn : Handle) (reads : List ReadResult)
  /-- Line 98, `clientConn.Read`, with the results still to come and the number of
  upstream writes made. -/
  | hcRelay (conn : Handle) (reads : List ReadResult) (k : Nat)
  /-- Line 82, `clientConn.Close()` of the deferred function. -/
  | hcClose (conn : Handle)
  /-- Line 83, `m.mu.Lock()` of the deferred function. -/
  | hcCleanupLock (conn : Handle)
  /-- Lines 84-89, the removal scan. -/
  | hcCleanupScan (conn : Handle)
  /-- Line 90, `m.mu.Unlock()`. -/
  | hcCleanupUnlock (conn : Handle)
  /-- Line 91, the log line. -/
  | hcCleanupLog (conn : Handle)
  /-- Line 63, `m.mudConn.Read`, with the results still to come and the number of
  broadcasts made. -/
  | rmRead (reads : List ReadResult) (k : Nat)
  /-- Line 116, `m.mu.Lock()` of `broadcastToClients`. -/
  | bcLock (data : Bytes) (reads : List ReadResult) (k : Nat)
  /-- Line 118, the evaluation of `m.clients` by `range`. -/
  | bcRange (data : Bytes) (reads : List ReadResult) (k : Nat)
  /-- Lines 119-122, the member write at index `i`, with the members still to visit. -/
  | bcWrite (data : Bytes) (todo : List Handle) (i : Nat) (reads : List ReadResult) (k : Nat)
  /-- Line 117, the deferred `m.mu.Unlock()`. -/
  | bcUnlock (reads : List ReadResult) (k : Nat)
  /-- Line 147, waiting for the signal. -/
  | sdWait
  /-- Line 168, `m.mu.Lock()` of `disconnectAllClients`. -/
  | daLock
  /-- Line 170, the evaluation of `m.clients` by `range`. -/
  | daRange
  /-- Line 171, `client.Close()`, with the members still to visit. -/
  | daClose (todo : List Handle)
  /-- Line 173, `m.clients = nil`. -/
  | daNil
  /-- Line 169, the deferred `m.mu.Unlock()`. -/
  | daUnlock
  /-- Line 150, `m.mudConn.Close()`. -/
  | sdCloseMud
  /-- Line 153, `os.Exit(0)`. -/
  | sdExit
  /-- The goroutine has returned. -/
  | finished

/-- What executing one statement does. -/
structure Effect where
  next : Goroutine
  mux : MUX
  mu : Option Nat
  events : List Event
  spawned : List Goroutine
  exits : Bool

/-- Execute the statement goroutine number `t` stands before, on `MUX` state `m` with the
mutex held by `mu`; `none` when the goroutine cannot move (blocked in `Lock`, in `Read`, in
`Accept`, or returned). -/
def Goroutine.run (env : Env) (t : Nat) (m : MUX) (mu : Option Nat) :
    Goroutine → Option Effect
  | Goroutine.accepting [] => none
  | Goroutine.accepting (none :: rest) =>
    some ⟨Goroutine.accepting rest, m, mu, [Event.log LogMsg.acceptError], [], false⟩
  | Goroutine.accepting (some (conn, reads) :: rest) =>
    some ⟨Goroutine.accepting rest, m, mu, [], [Goroutine.hcLock conn reads], false⟩
  | Goroutine.hcLock conn reads =>
    if mu = none then some ⟨Goroutine.hcAppend conn reads, m, some t, [], [], false⟩ else none
  | Goroutine.hcAppend conn reads =>
    some ⟨Goroutine.hcUnlock conn reads, registerClient m conn, mu, [], [], false⟩
  | Goroutine.hcUnlock conn reads =>
    some ⟨Goroutine.hcLogNew conn reads, m, none, [], [], false⟩
  | Goroutine.hcLogNew conn reads =>
    some ⟨Goroutine.hcRelay conn reads 0, m, mu, [Event.log (LogMsg.newClient conn)], [], false⟩
  | Goroutine.hcRelay _ [] _ => none
  | Goroutine.hcRelay conn (ReadResult.err e :: rest) k =>
    if e.isTimeout then some ⟨Goroutine.hcRelay conn rest k, m, mu, [], [], false⟩
    else some ⟨Goroutine.hcClose conn, m, mu, [Event.log LogMsg.errReadingClient], [], false⟩
  | Goroutine.hcRelay conn (ReadResult.chunk data :: rest) k =>
    if env.wfail conn k then
      some ⟨Goroutine.hcClose conn, m, mu,
        [Event.log (LogMsg.clientToMud data), Event.mudWrite data,
         Event.log LogMsg.errSendingMud], [], false⟩
    else
      some ⟨Goroutine.hcRelay conn rest (k + 1), m, mu,
        [Event.log (LogMsg.clientToMud data), Event.mudWrite data], [], false⟩
  | Goroutine.hcClose conn =>
    some ⟨Goroutine.hcCleanupLock conn, m, mu, [Event.clientClose conn], [], false⟩
  | Goroutine.hcCleanupLock conn =>
    if mu = none then some ⟨Goroutine.hcCleanupScan conn, m, some t, [], [], false⟩ else none
  | Goroutine.hcCleanupScan conn =>
    some ⟨Goroutine.hcCleanupUnlock conn, removeClient m conn, mu, [], [], false⟩
  | Goroutine.hcCleanupUnlock conn =>
    some ⟨Goroutine.hcCleanupLog conn, m, none, [], [], false⟩
  | Goroutine.hcCleanupLog conn =>
    some ⟨Goroutine.finished, m, mu, [Event.log (LogMsg.clientDisconnected conn)], [], false⟩
  | Goroutine.rmRead [] _ => none
  | Goroutine.rmRead (ReadResult.err e :: rest) k =>
    if e.isTimeout then some ⟨Goroutine.rmRead rest k, m, mu, [], [], false⟩
    else some ⟨Goroutine.finished, m, mu, [Event.log LogMsg.errReadingMUD], [], false⟩
  | Goroutine.rmRead (ReadResult.chunk data :: rest) k =>
    some ⟨Goroutine.bcLock data rest k, m, mu, [Event.log (LogMsg.mudToClients data)], [], false⟩
  | Goroutine.bcLock data reads k =>
    if mu = none then some ⟨Goroutine.bcRange data reads k, m, some t, [], [], false⟩ else none
  | Goroutine.bcRange data reads k =>
    some ⟨Goroutine.bcWrite data m.clients 0 reads k, m, mu, [], [], false⟩
  | Goroutine.bcWrite _ [] _ reads k =>
    some ⟨Goroutine.bcUnlock reads k, m, mu, [], [], false⟩
  | Goroutine.bcWrite data (client :: rest) i reads k =>
    some ⟨Goroutine.bcWrite data rest (i + 1) reads k, m, mu,
      if env.fails k i then [Event.clientWrite client data, Event.log LogMsg.errBroadcasting]
      else [Event.clientWrite client data], [], false⟩
  | Goroutine.bcUnlock reads k =>
    some ⟨Goroutine.rmRead reads (k + 1), m, none, [], [], false⟩
  | Goroutine.sdWait =>
    some ⟨Goroutine.daLock, m, mu, [Event.log LogMsg.shuttingDown], [], false⟩
  | Goroutine.daLock =>
    if mu = none then some ⟨Goroutine.daRange, m, some t, [], [], false⟩ else none
  | Goroutine.daRange =>
    some ⟨Goroutine.daClose m.clients, m, mu, [], [], false⟩
  | Goroutine.daClose [] =>
    some ⟨Goroutine.daNil, m, mu, [], [], false⟩
  | Goroutine.daClose (client :: rest) =>
    some ⟨Goroutine.daClose rest, m, mu, [Event.clientClose client], [], false⟩
  | Goroutine.daNil =>
    some ⟨Goroutine.daUnlock, { m with clients := [] }, mu, [], [], false⟩
  | Goroutine.daUnlock =>
    some ⟨Goroutine.sdCloseMud, m, none, [], [], false⟩
  | Goroutine.sdCloseMud =>
    some ⟨Goroutine.sdExit, (mudConnClose m env.closeFails).1, mu,
      Event.mudClose :: (if (mudConnClose m env.closeFails).2
        then [Event.log LogMsg.errClosingMud] else []), [], false⟩
  | Goroutine.sdExit =>
    some ⟨Goroutine.finished, m, mu, [], [], true⟩
  | Goroutine.finished => none

/-- The running process: the `MUX`, the holder of `m.mu`, the goroutines, the calls made so
far, and whether `os.Exit` has been called. -/
structure Sys where
  mux : MUX
  mu : Option Nat
  goroutines : List Goroutine
  trace : List Event
  exited : Bool

/-- One step of goroutine number `t`. -/
def step (env : Env) (s : Sys) (t : Nat) : Option Sys :=
  if s.exited then none
  else
    match s.goroutines[t]? with
    | none => none
    | some g =>
      match g.run env t s.mux s.mu with
      | none => none
      | some e =>
        some { mux := e.mux, mu := e.mu, goroutines := s.goroutines.set t e.next ++ e.spawned,
               trace := s.trace ++ e.events, exited := e.exits }

/-- Run a schedule: each entry names the goroutine to move next; an entry naming a goroutine
that cannot move is skipped. -/
def exec (env : Env) : Sys → List Nat → Sys
  | s, [] => s
  | s, t :: rest =>
    match step env s t with
    | some s2 => exec env s2 rest
    | none => exec env s rest

/-- The process as `start` sets it up (lines 126-155): the accept loop, `readFromMUD` and the
shutdown goroutine, the mutex free, the client list of `NewMUX`. -/
def startSys (upstream : List ReadResult)
    (accepts : List (Option (Handle × List ReadResult))) : Sys :=
  { mux := NewMUX, mu := none,
    goroutines := [Goroutine.accepting accepts, Goroutine.rmRead upstream 0, Goroutine.sdWait],
    trace := [], exited := false }

/-- The goroutine is inside `broadcastToClients`, between its `Lock` and its `Unlock`. -/
def Goroutine.inBroadcast : Goroutine → Bool
  | Goroutine.bcRange _ _ _ => true
  | Goroutine.bcWrite _ _ _ _ _ => true
  | Goroutine.bcUnlock _ _ => true
  | _ => false

/-- The goroutine is between a `m.mu.Lock()` and the matching `m.mu.Unlock()`. -/
def Goroutine.locked : Goroutine → Bool
  | Goroutine.hcAppend _ _ => true
  | Goroutine.hcUnlock _ _ => true
  | Goroutine.hcCleanupScan _ => true
  | Goroutine.hcCleanupUnlock _ => true
  | Goroutine.bcRange _ _ _ => true
  | Goroutine.bcWrite _ _ _ _ _ => true
  | Goroutine.bcUnlock _ _ => true
  | Goroutine.daRange => true
  | Goroutine.daClose _ => true
  | Goroutine.daNil => true
  | Goroutine.daUnlock => true
  | _ => false

/-- The same process with another client list. -/
def Sys.withClients (s : Sys) (l : List Handle) : Sys :=
  { s with mux := { s.mux with clients := l } }

/-- The invariant of the mutex discipline: a goroutine is between a `Lock` and the matching
`Unlock` exactly when it is the holder of `m.mu`, the holder is an existing goroutine, and
the members a broadcast has still to visit are the current client list from its index on. -/
def MutexInv (s : Sys) : Prop :=
  (∀ (t : Nat) (g : Goroutine), s.goroutines[t]? = some g →
    (g.locked = true ↔ s.mu = some t)) ∧
  (∀ t : Nat, s.mu = some t → t < s.goroutines.length) ∧
  (∀ (b : Nat) (data : Bytes) (todo : List Handle) (i : Nat) (reads : List ReadResult)
    (k : Nat), s.goroutines[b]? = some (Goroutine.bcWrite data todo i reads k) →
      s.mux.clients.drop i = todo)

/-- The process reached from the set-up of `start` by a schedule. -/
def reach (env : Env) (upstream : List ReadResult)
    (accepts : List (Option (Handle × List ReadResult))) (sched : List Nat) : Sys :=
  exec env (startSys upstream accepts) sched

/-! ## Lemmas on trace projections -/

theorem clientWrites_append (a b : List Event) :
    clientWrites (a ++ b) = clientWrites a ++ clientWrites b := by
  induction a with
  | nil => rfl
  | cons e t ih => cases e <;> simp [clientWrites, ih]

theorem clientCloses_append (a b : List Event) :
    clientCloses (a ++ b) = clientCloses a ++ clientCloses b := by
  induction a with
  | nil => rfl
  | cons e t ih => cases e <;> simp [clientCloses, ih]

theorem mudWrites_append (a b : List Event) :
    mudWrites (a ++ b) = mudWrites a ++ mudWrites b := by
  induction a with
  | nil => rfl
  | cons e t ih => cases e <;> simp [mudWrites, ih]

theorem mudCloses_append (a b : List Event) :
    mudCloses (a ++ b) = mudCloses a + mudCloses b := by
  induction a with
  | nil => simp [mudCloses]
  | cons e t ih =>
    cases e <;> simp [mudCloses, ih]
    omega

theorem delivered_append (h : Handle) (a b : List Event) :
    delivered h (a ++ b) = delivered h a ++ delivered h b := by
  induction a with
  | nil => rfl
  | cons e t ih =>
    cases e <;> simp [delivered, ih]
    split <;> simp

/-! ## The deregistration scan -/

theorem removeScan_spec (clientConn : Handle) (rest pre : List Handle)
    (hpre : clientConn ∉ pre) :
    removeScan (pre ++ rest) clientConn rest pre.length = pre ++ rest.erase clientConn := by
  induction rest generalizing pre with
  | nil => simp [removeScan]
  | cons c rest ih =>
    by_cases hc : c = clientConn
    · subst hc
      simp [removeScan]
    · have hpre2 : clientConn ∉ pre ++ [c] := by
        simp only [List.mem_append, List.mem_singleton, not_or]
        exact ⟨hpre, fun h => hc h.symm⟩
      have key := ih (pre ++ [c]) hpre2
      simp only [List.append_assoc, List.singleton_append, List.length_append,
        List.length_singleton] at key
      have hne : (c == clientConn) = false := by simpa using hc
      simp only [removeScan, hc, if_false, key, List.erase_cons, hne]
      simp

theorem removeClient_clients (m : MUX) (clientConn : Handle) :
    (removeClient m clientConn).clients = m.clients.erase clientConn := by
  have h := removeScan_spec clientConn m.clients [] (by simp)
  simpa [removeClient] using h

theorem erase_first_occurrence (clientConn : Handle) (pre post : List Handle)
    (hpre : clientConn ∉ pre) :
    (pre ++ clientConn :: post).erase clientConn = pre ++ post := by
  rw [List.erase_append_right _ hpre]
  simp

/-! ## The two loops over the client list -/

theorem clientWrites_broadcastLoop (data : Bytes) (fails : Nat → Bool)
    (l : List Handle) (i : Nat) :
    clientWrites (broadcastLoop data fails l i) = l.map (fun c => (c, data)) := by
  induction l generalizing i with
  | nil => rfl
  | cons c rest ih =>
    simp only [broadcastLoop]
    split <;> simp [clientWrites, ih]

theorem clientCloses_broadcastLoop (data : Bytes) (fails : Nat → Bool)
    (l : List Handle) (i : Nat) :
    clientCloses (broadcastLoop data fails l i) = [] := by
  induction l generalizing i with
  | nil => rfl
  | cons c rest ih =>
    simp only [broadcastLoop]
    split <;> simp [clientCloses, ih]

theorem mudWrites_broadcastLoop (data : Bytes) (fails : Nat → Bool)
    (l : List Handle) (i : Nat) :
    mudWrites (broadcastLoop data fails l i) = [] := by
  induction l generalizing i with
  | nil => rfl
  | cons c rest ih =>
    simp only [broadcastLoop]
    split <;> simp [mudWrites, ih]

theorem mudCloses_broadcastLoop (data : Bytes) (fails : Nat → Bool)
    (l : List Handle) (i : Nat) :
    mudCloses (broadcastLoop data fails l i) = 0 := by
  induction l generalizing i with
  | nil => rfl
  | cons c rest ih =>
    simp only [broadcastLoop]
    split <;> simp [mudCloses, ih]

theorem clientCloses_closeLoop (l : List Handle) : clientCloses (closeLoop l) = l := by
  induction l with
  | nil => rfl
  | cons c rest ih => simp [closeLoop, clientCloses, ih]

theorem clientWrites_closeLoop (l : List Handle) : clientWrites (closeLoop l) = [] := by
  induction l with
  | nil => rfl
  | cons c rest ih => simp [closeLoop, clientWrites, ih]

theorem mudWrites_closeLoop (l : List Handle) : mudWrites (closeLoop l) = [] := by
  induction l with
  | nil => rfl
  | cons c rest ih => simp [closeLoop, mudWrites, ih]

theorem mudCloses_closeLoop (l : List Handle) : mudCloses (closeLoop l) = 0 := by
  induction l with
  | nil => rfl
  | cons c rest ih => simp [closeLoop, mudCloses, ih]

theorem count_map_pair (data : Bytes) (h : Handle) (l : List Handle) :
    (l.map (fun c => (c, data))).count (h, data) = l.count h := by
  induction l with
  | nil => rfl
  | cons c rest ih =>
    simp only [List.map_cons, List.count_cons, ih]
    by_cases hc : c = h <;> simp [hc]

/-! ## `broadcastToClients`, the deferred cleanup and `disconnectAllClients` -/

/-- C1: whatever the client list, the chunk and the outcome of each member write,
`broadcastToClients` calls `Write` with the unmodified chunk once per entry of the client
list, in list order (so also on the entries after one whose write failed), on no handle
outside the list, makes no other call on a connection, and leaves the `MUX`, hence the
membership and order of the client list, as it was. -/
theorem broadcastToClients_writes_every_member (m : MUX) (data : Bytes) (fails : Nat → Bool) :
    clientWrites (broadcastToClients m data fails).2 = m.clients.map (fun c => (c, data)) ∧
    (∀ h d, (h, d) ∈ clientWrites (broadcastToClients m data fails).2 →
      h ∈ m.clients ∧ d = data) ∧
    (∀ h, (clientWrites (broadcastToClients m data fails).2).count (h, data)
      = m.clients.count h) ∧
    clientCloses (broadcastToClients m data fails).2 = [] ∧
    mudWrites (broadcastToClients m data fails).2 = [] ∧
    mudCloses (broadcastToClients m data fails).2 = 0 ∧
    (broadcastToClients m data fails).1 = m := by
  have hw := clientWrites_broadcastLoop data fails m.clients 0
  refine ⟨hw, ?_, ?_, ?_, ?_, ?_, rfl⟩
  · intro h d hmem
    simp only [broadcastToClients] at hmem
    rw [hw] at hmem
    simp only [List.mem_map, Prod.mk.injEq] at hmem
    obtain ⟨c, hc, rfl, rfl⟩ := hmem
    exact ⟨hc, rfl⟩
  · intro h
    simp only [broadcastToClients]
    rw [hw, count_map_pair]
  · exact clientCloses_broadcastLoop data fails m.clients 0
  · exact mudWrites_broadcastLoop data fails m.clients 0
  · exact mudCloses_broadcastLoop data fails m.clients 0

/-- C3: the deregistration of the deferred cleanup removes the first entry equal to the
handle and keeps every other entry in place: if the list is `pre ++ conn :: post` with `conn`
not in `pre`, it becomes `pre ++ post`; if the handle is absent the list is unchanged, in
particular after `disconnectAllClients` and after a first removal of a handle that occurred
once. -/
theorem deferredCleanup_removes_first_entry (m : MUX) (clientConn : Handle) :
    (∀ pre post, m.clients = pre ++ clientConn :: post → clientConn ∉ pre →
      (deferredCleanup m clientConn).1.clients = pre ++ post) ∧
    (clientConn ∈ m.clients → ∃ pre post, m.clients = pre ++ clientConn :: post ∧
      clientConn ∉ pre ∧ (deferredCleanup m clientConn).1.clients = pre ++ post) ∧
    (clientConn ∉ m.clients → (deferredCleanup m clientConn).1.clients = m.clients) ∧
    (deferredCleanup (disconnectAllClients m).1 clientConn).1.clients
      = (disconnectAllClients m).1.clients ∧
    (m.clients.count clientConn = 1 →
      (deferredCleanup (deferredCleanup m clientConn).1 clientConn).1.clients
        = (deferredCleanup m clientConn).1.clients) := by
  have hrm : ∀ m' : MUX, (deferredCleanup m' clientConn).1.clients
      = m'.clients.erase clientConn := fun m' => removeClient_clients m' clientConn
  refine ⟨?_, ?_, ?_, ?_, ?_⟩
  · intro pre post hl hpre
    rw [hrm, hl, erase_first_occurrence clientConn pre post hpre]
  · intro hmem
    obtain ⟨pre, post, hl, hpre⟩ := List.eq_append_cons_of_mem hmem
    exact ⟨pre, post, hl, hpre, by rw [hrm, hl, erase_first_occurrence clientConn pre post hpre]⟩
  · intro hmem
    rw [hrm, List.erase_of_not_mem hmem]
  · rw [hrm]
    simp [disconnectAllClients]
  · intro hcount
    rw [hrm (deferredCleanup m clientConn).1, hrm m]
    apply List.erase_of_not_mem
    intro hmem
    have h0 : (m.clients.erase clientConn).count clientConn = 0 := by
      rw [List.count_erase_self, hcount]
    exact (List.count_pos_iff.mpr hmem).ne' h0

/-- C7: `disconnectAllClients` calls `Close` on the entries of the client list, in order, so
on every member and on no handle that is not a member, touches no other connection, and
leaves the client list empty. -/
theorem disconnectAllClients_closes_members (m : MUX) :
    clientCloses (disconnectAllClients m).2 = m.clients ∧
    (∀ h, h ∈ clientCloses (disconnectAllClients m).2 ↔ h ∈ m.clients) ∧
    (disconnectAllClients m).1.clients = [] ∧
    clientWrites (disconnectAllClients m).2 = [] ∧
    mudWrites (disconnectAllClients m).2 = [] ∧
    mudCloses (disconnectAllClients m).2 = 0 ∧
    (disconnectAllClients m).1.mudClosed = m.mudClosed := by
  have hc := clientCloses_closeLoop m.clients
  refine ⟨hc, ?_, rfl, clientWrites_closeLoop m.clients, mudWrites_closeLoop m.clients,
    mudCloses_closeLoop m.clients, rfl⟩
  intro h
  simp only [disconnectAllClients]
  rw [hc]

/-! ## The relay loop of `handleClient` -/

theorem mudWrites_relayLoop (wfail : Nat → Bool) (reads : List ReadResult) (k : Nat) :
    mudWrites (relayLoop wfail reads k).1
      = throughFirstFailure wfail (chunksOf (beforeFatal reads)) k := by
  induction reads generalizing k with
  | nil => rfl
  | cons r rest ih =>
    cases r with
    | chunk data =>
      by_cases hf : wfail k = true
      · simp [relayLoop, beforeFatal, chunksOf, throughFirstFailure, hf, mudWrites]
      · simp [relayLoop, beforeFatal, chunksOf, throughFirstFailure, hf, mudWrites, ih]
    | err e =>
      by_cases ht : e.isTimeout = true
      · simp [relayLoop, beforeFatal, chunksOf, ht, ih]
      · simp [relayLoop, beforeFatal, chunksOf, throughFirstFailure, ht, mudWrites]

theorem relayLoop_no_client_calls (wfail : Nat → Bool) (reads : List ReadResult) (k : Nat) :
    clientCloses (relayLoop wfail reads k).1 = [] ∧
    clientWrites (relayLoop wfail reads k).1 = [] ∧
    mudCloses (relayLoop wfail reads k).1 = 0 := by
  induction reads generalizing k with
  | nil => exact ⟨rfl, rfl, rfl⟩
  | cons r rest ih =>
    cases r with
    | chunk data =>
      by_cases hf : wfail k = true
      · simp [relayLoop, hf, clientCloses, clientWrites, mudCloses]
      · simp [relayLoop, hf, clientCloses, clientWrites, mudCloses, ih]
    | err e =>
      by_cases ht : e.isTimeout = true
      · simp [relayLoop, ht, ih]
      · simp [relayLoop, ht, clientCloses, clientWrites, mudCloses]

theorem relayLoop_skip_timeout (wfail : Nat → Bool) (e : GoError) (ht : e.isTimeout = true)
    (pre post : List ReadResult) (k : Nat) :
    relayLoop wfail (pre ++ ReadResult.err e :: post) k = relayLoop wfail (pre ++ post) k := by
  induction pre generalizing k with
  | nil => simp [relayLoop, ht]
  | cons r rest ih =>
    cases r with
    | chunk data =>
      by_cases hf : wfail k = true
      · simp [relayLoop, hf]
      · simp [relayLoop, hf, ih]
    | err e2 =>
      by_cases ht2 : e2.isTimeout = true
      · simp [relayLoop, ht2, ih]
      · simp [relayLoop, ht2]

theorem handleClient_trace (m : MUX) (clientConn : Handle) (reads : List ReadResult)
    (wfail : Nat → Bool) :
    (handleClient m clientConn reads wfail).trace
      = Event.log (LogMsg.newClient clientConn) :: (relayLoop wfail reads 0).1 ++
        (match (relayLoop wfail reads 0).2 with
          | LoopStatus.returned => (deferredCleanup (registerClient m clientConn) clientConn).2
          | LoopStatus.blocked => []) := by
  unfold handleClient
  cases (relayLoop wfail reads 0).2 <;> simp

theorem erase_filter_ne (a : Handle) (l : List Handle) :
    (l.erase a).filter (fun c => decide (c ≠ a)) = l.filter (fun c => decide (c ≠ a)) := by
  induction l with
  | nil => rfl
  | cons c rest ih =>
    by_cases hc : c = a
    · subst hc
      simp
    · have hne : (c == a) = false := by simpa using hc
      simp only [decide_not] at ih
      simp [List.erase_cons, hne, List.filter_cons, hc, ih]

/-- C4: whatever the results of the client's reads and the fate of each upstream write, the
`m.mudConn.Write` calls of `handleClient` carry exactly the chunks read before the first
read error that is not a timeout, unmodified, one call per chunk and in the order read, up
to and including the first chunk whose write fails; a timeout error anywhere in the input
changes nothing to what `handleClient` does. -/
theorem handleClient_upstream_writes (m : MUX) (clientConn : Handle)
    (reads : List ReadResult) (wfail : Nat → Bool) :
    mudWrites (handleClient m clientConn reads wfail).trace
      = throughFirstFailure wfail (chunksOf (beforeFatal reads)) 0 ∧
    (∀ e pre post, e.isTimeout = true → reads = pre ++ ReadResult.err e :: post →
      handleClient m clientConn reads wfail = handleClient m clientConn (pre ++ post) wfail) := by
  constructor
  · rw [handleClient_trace]
    have h := mudWrites_relayLoop wfail reads 0
    cases hs : (relayLoop wfail reads 0).2 <;>
      simp [mudWrites, mudWrites_append, h, deferredCleanup]
  · intro e pre post ht hr
    subst hr
    unfold handleClient
    rw [relayLoop_skip_timeout wfail e ht pre post 0]

theorem relayLoop_status (wfail : Nat → Bool) (reads : List ReadResult) (k : Nat) :
    (relayLoop wfail reads k).2 = LoopStatus.returned ↔
      (hasFatal reads = true ∨ ∃ j, j < (chunksOf reads).length ∧ wfail (k + j) = true) := by
  induction reads generalizing k with
  | nil => simp [relayLoop, hasFatal, chunksOf]
  | cons r rest ih =>
    cases r with
    | err e =>
      by_cases ht : e.isTimeout = true
      · simp only [relayLoop, ht, if_true, hasFatal, chunksOf, Bool.not_true, Bool.false_or]
        exact ih k
      · simp [relayLoop, ht, hasFatal]
    | chunk data =>
      by_cases hf : wfail k = true
      · simp only [relayLoop, hf, if_true, true_iff]
        exact Or.inr ⟨0, by simp [chunksOf], by simpa using hf⟩
      · simp only [relayLoop, hf, Bool.false_eq_true, if_false, hasFatal, chunksOf,
          List.length_cons]
        rw [ih (k + 1)]
        constructor
        · rintro (h | ⟨j, hj, hw⟩)
          · exact Or.inl h
          · exact Or.inr ⟨j + 1, by omega, by
              have e : k + (j + 1) = k + 1 + j := by omega
              rw [e]
              exact hw⟩
        · rintro (h | ⟨j, hj, hw⟩)
          · exact Or.inl h
          · cases j with
            | zero => exact absurd hw hf
            | succ j =>
              exact Or.inr ⟨j, by omega, by
                have e : k + 1 + j = k + (j + 1) := by omega
                rw [e]
                exact hw⟩

theorem relayLoop_disconnect_logs (wfail : Nat → Bool) (clientConn : Handle)
    (reads : List ReadResult) (k : Nat) :
    (relayLoop wfail reads k).1.count (Event.log (LogMsg.clientDisconnected clientConn))
      = 0 := by
  induction reads generalizing k with
  | nil => rfl
  | cons r rest ih =>
    cases r with
    | chunk data =>
      by_cases hf : wfail k = true
      · simp [relayLoop, hf, List.count_cons]
      · simp [relayLoop, hf, List.count_cons, ih]
    | err e =>
      by_cases ht : e.isTimeout = true
      · simp [relayLoop, ht, ih]
      · simp [relayLoop, ht, List.count_cons]

/-- C5: the relay loop of a session ends exactly when the client's reads bring a read error
that is not a timeout or an upstream write of a chunk read fails.  When that happens
`handleClient` returns having run the termination step once: the only `Close` call on a
client is one call on the session's own connection, one entry equal to the session's handle
has been removed from the client list, every other entry is in place and in order, and the
upstream connection is neither closed nor reopened.  When it does not happen the session
stays blocked in `Read` with no `Close` and its handle registered.  The termination step has
the same effect on any `MUX` state. -/
theorem handleClient_terminates_once (m : MUX) (clientConn : Handle)
    (reads : List ReadResult) (wfail : Nat → Bool) :
    ((handleClient m clientConn reads wfail).status = LoopStatus.returned ↔
      (hasFatal reads = true ∨ ∃ j, j < (chunksOf reads).length ∧ wfail j = true)) ∧
    ((hasFatal reads = true ∨ ∃ j, j < (chunksOf reads).length ∧ wfail j = true) →
      (handleClient m clientConn reads wfail).status = LoopStatus.returned ∧
      clientCloses (handleClient m clientConn reads wfail).trace = [clientConn] ∧
      (handleClient m clientConn reads wfail).trace.count
        (Event.log (LogMsg.clientDisconnected clientConn)) = 1 ∧
      (handleClient m clientConn reads wfail).mux.clients
        = (m.clients ++ [clientConn]).erase clientConn ∧
      (clientConn ∉ m.clients →
        (handleClient m clientConn reads wfail).mux.clients = m.clients) ∧
      (handleClient m clientConn reads wfail).mux.clients.filter
          (fun c => decide (c ≠ clientConn))
        = m.clients.filter (fun c => decide (c ≠ clientConn)) ∧
      (handleClient m clientConn reads wfail).mux.clients.count clientConn
        = m.clients.count clientConn ∧
      (handleClient m clientConn reads wfail).mux.mudClosed = m.mudClosed ∧
      mudCloses (handleClient m clientConn reads wfail).trace = 0 ∧
      clientWrites (handleClient m clientConn reads wfail).trace = []) ∧
    (¬ (hasFatal reads = true ∨ ∃ j, j < (chunksOf reads).length ∧ wfail j = true) →
      (handleClient m clientConn reads wfail).status = LoopStatus.blocked ∧
      clientCloses (handleClient m clientConn reads wfail).trace = [] ∧
      (handleClient m clientConn reads wfail).mux.clients = m.clients ++ [clientConn] ∧
      (handleClient m clientConn reads wfail).mux.mudClosed = m.mudClosed) ∧
    (∀ m2 : MUX,
      clientCloses (deferredCleanup m2 clientConn).2 = [clientConn] ∧
      (deferredCleanup m2 clientConn).1.clients = m2.clients.erase clientConn ∧
      (deferredCleanup m2 clientConn).1.clients.filter (fun c => decide (c ≠ clientConn))
        = m2.clients.filter (fun c => decide (c ≠ clientConn)) ∧
      (deferredCleanup m2 clientConn).1.mudClosed = m2.mudClosed ∧
      mudCloses (deferredCleanup m2 clientConn).2 = 0) := by
  have hiff : (relayLoop wfail reads 0).2 = LoopStatus.returned ↔
      (hasFatal reads = true ∨ ∃ j, j < (chunksOf reads).length ∧ wfail j = true) := by
    have h := relayLoop_status wfail reads 0
    simpa using h
  have hno := relayLoop_no_client_calls wfail reads 0
  have htr := handleClient_trace m clientConn reads wfail
  have hstatus : (handleClient m clientConn reads wfail).status = (relayLoop wfail reads 0).2 := by
    unfold handleClient
    cases (relayLoop wfail reads 0).2 <;> rfl
  refine ⟨by rw [hstatus]; exact hiff, ?_, ?_, ?_⟩
  · intro htrigger
    have hend := hiff.mpr htrigger
    rw [hend] at htr
    have hmux : (handleClient m clientConn reads wfail).mux
        = (deferredCleanup (registerClient m clientConn) clientConn).1 := by
      unfold handleClient
      rw [hend]
    have hcl : (handleClient m clientConn reads wfail).mux.clients
        = (m.clients ++ [clientConn]).erase clientConn := by
      rw [hmux]
      exact removeClient_clients (registerClient m clientConn) clientConn
    refine ⟨by rw [hstatus]; exact hend, ?_, ?_, hcl, ?_, ?_, ?_, ?_, ?_, ?_⟩
    · rw [htr]
      simp [clientCloses, clientCloses_append, hno.1, deferredCleanup]
    · rw [htr]
      simp [List.count_cons, List.count_append, relayLoop_disconnect_logs, deferredCleanup]
    · intro hfresh
      rw [hcl, List.erase_append_right _ hfresh]
      simp
    · rw [hcl, erase_filter_ne]
      simp
    · rw [hcl, List.count_erase_self]
      simp
    · rw [hmux]
      rfl
    · rw [htr]
      simp [mudCloses, mudCloses_append, hno.2.2, deferredCleanup]
    · rw [htr]
      simp [clientWrites, clientWrites_append, hno.2.1, deferredCleanup]
  · intro hnot
    have hblocked : (relayLoop wfail reads 0).2 = LoopStatus.blocked := by
      cases hs : (relayLoop wfail reads 0).2
      · exact absurd (hiff.mp hs) hnot
      · rfl
    rw [hblocked] at htr
    have hmux : (handleClient m clientConn reads wfail).mux = registerClient m clientConn := by
      unfold handleClient
      rw [hblocked]
    refine ⟨by rw [hstatus]; exact hblocked, ?_, by rw [hmux]; rfl, by rw [hmux]; rfl⟩
    rw [htr]
    simp [clientCloses, clientCloses_append, hno.1]
  · intro m2
    refine ⟨rfl, removeClient_clients m2 clientConn, ?_, rfl, rfl⟩
    have h2 : (deferredCleanup m2 clientConn).1.clients = m2.clients.erase clientConn :=
      removeClient_clients m2 clientConn
    rw [h2, erase_filter_ne]

/-- Witness of C5: one session reads a chunk and then meets a read error that is not a
timeout; another reads a chunk whose upstream write fails.  Each ends with one `Close` of
its own connection and the client list as it was. -/
theorem handleClient_terminates_once_witness :
    (clientCloses (handleClient ⟨[4, 5], false⟩ 9
      [ReadResult.chunk [108, 111, 111, 107, 10], ReadResult.err ⟨false, false⟩]
      (fun _ => false)).trace = [9] ∧
     (handleClient ⟨[4, 5], false⟩ 9
      [ReadResult.chunk [108, 111, 111, 107, 10], ReadResult.err ⟨false, false⟩]
      (fun _ => false)).mux.clients = [4, 5]) ∧
    (clientCloses (handleClient ⟨[4, 5], false⟩ 9
      [ReadResult.chunk [108, 111, 111, 107, 10]] (fun _ => true)).trace = [9] ∧
     (handleClient ⟨[4, 5], false⟩ 9
      [ReadResult.chunk [108, 111, 111, 107, 10]] (fun _ => true)).mux.clients = [4, 5]) :=
  ⟨⟨((handleClient_terminates_once ⟨[4, 5], false⟩ 9
        [ReadResult.chunk [108, 111, 111, 107, 10], ReadResult.err ⟨false, false⟩]
        (fun _ => false)).2.1 (Or.inl (by decide))).2.1,
    ((handleClient_terminates_once ⟨[4, 5], false⟩ 9
        [ReadResult.chunk [108, 111, 111, 107, 10], ReadResult.err ⟨false, false⟩]
        (fun _ => false)).2.1 (Or.inl (by decide))).2.2.2.2.1 (by decide)⟩,
   ⟨((handleClient_terminates_once ⟨[4, 5], false⟩ 9
        [ReadResult.chunk [108, 111, 111, 107, 10]] (fun _ => true)).2.1
        (Or.inr ⟨0, by decide, rfl⟩)).2.1,
    ((handleClient_terminates_once ⟨[4, 5], false⟩ 9
        [ReadResult.chunk [108, 111, 111, 107, 10]] (fun _ => true)).2.1
        (Or.inr ⟨0, by decide, rfl⟩)).2.2.2.2.1 (by decide)⟩⟩

/-! ## `readFromMUD` -/

theorem broadcastLogs_append (a b : List Event) :
    broadcastLogs (a ++ b) = broadcastLogs a ++ broadcastLogs b := by
  induction a with
  | nil => rfl
  | cons e t ih =>
    cases e with
    | log msg => cases msg <;> simp [broadcastLogs, ih]
    | _ => simp [broadcastLogs, ih]

theorem broadcastLogs_broadcastLoop (data : Bytes) (fails : Nat → Bool)
    (l : List Handle) (i : Nat) :
    broadcastLogs (broadcastLoop data fails l i) = [] := by
  induction l generalizing i with
  | nil => rfl
  | cons c rest ih =>
    simp only [broadcastLoop]
    split <;> simp [broadcastLogs, ih]

theorem readFromMUD_mux (fails : Nat → Nat → Bool) (reads : List ReadResult) (k : Nat)
    (m : MUX) : (readFromMUD fails reads k m).mux = m := by
  induction reads generalizing k with
  | nil => rfl
  | cons r rest ih =>
    cases r with
    | chunk data => simp [readFromMUD, broadcastToClients, ih]
    | err e =>
      by_cases ht : e.isTimeout = true
      · simp [readFromMUD, ht, ih]
      · simp [readFromMUD, ht]

theorem readFromMUD_trace (fails : Nat → Nat → Bool) (reads : List ReadResult) (k : Nat)
    (m : MUX) :
    clientWrites (readFromMUD fails reads k m).trace
      = broadcastsTo m.clients (chunksOf (beforeFatal reads)) ∧
    broadcastLogs (readFromMUD fails reads k m).trace = chunksOf (beforeFatal reads) ∧
    clientCloses (readFromMUD fails reads k m).trace = [] ∧
    mudWrites (readFromMUD fails reads k m).trace = [] ∧
    mudCloses (readFromMUD fails reads k m).trace = 0 ∧
    (readFromMUD fails reads k m).status
      = (if hasFatal reads then LoopStatus.returned else LoopStatus.blocked) := by
  induction reads generalizing k with
  | nil => simp [readFromMUD, beforeFatal, chunksOf, broadcastsTo, clientWrites, broadcastLogs,
      clientCloses, mudWrites, mudCloses, hasFatal]
  | cons r rest ih =>
    cases r with
    | chunk data =>
      obtain ⟨h1, h2, h3, h4, h5, h6⟩ := ih (k + 1)
      simp only [broadcastToClients] at *
      simp [readFromMUD, broadcastToClients, beforeFatal, chunksOf, broadcastsTo, hasFatal,
        clientWrites, clientWrites_append, clientWrites_broadcastLoop, h1,
        broadcastLogs, broadcastLogs_append, broadcastLogs_broadcastLoop, h2,
        clientCloses, clientCloses_append, clientCloses_broadcastLoop, h3,
        mudWrites, mudWrites_append, mudWrites_broadcastLoop, h4,
        mudCloses, mudCloses_append, mudCloses_broadcastLoop, h5, h6]
    | err e =>
      by_cases ht : e.isTimeout = true
      · simpa [readFromMUD, beforeFatal, chunksOf, hasFatal, ht] using ih k
      · simp [readFromMUD, beforeFatal, chunksOf, broadcastsTo, hasFatal, ht, clientWrites,
          broadcastLogs, clientCloses, mudWrites, mudCloses]

/-- C9: whatever the results of the upstream reads and the outcome of each member write,
`readFromMUD` calls `broadcastToClients` on exactly the chunks read before the first error
that is not a timeout, unmodified and in the order read (each broadcast logged and written
once to every entry of the client list); timeouts are skipped, nothing is broadcast after the
first other error, at which the method returns; it calls `Close` on no connection and leaves
the `MUX`, hence the client list, as it found it. -/
theorem readFromMUD_broadcasts_until_fatal (fails : Nat → Nat → Bool)
    (reads : List ReadResult) (m : MUX) :
    broadcastLogs (readFromMUD fails reads 0 m).trace = chunksOf (beforeFatal reads) ∧
    clientWrites (readFromMUD fails reads 0 m).trace
      = broadcastsTo m.clients (chunksOf (beforeFatal reads)) ∧
    (readFromMUD fails reads 0 m).status
      = (if hasFatal reads then LoopStatus.returned else LoopStatus.blocked) ∧
    clientCloses (readFromMUD fails reads 0 m).trace = [] ∧
    mudCloses (readFromMUD fails reads 0 m).trace = 0 ∧
    (readFromMUD fails reads 0 m).mux = m := by
  obtain ⟨h1, h2, h3, _, h5, h6⟩ := readFromMUD_trace fails reads 0 m
  exact ⟨h2, h1, h6, h3, h5, readFromMUD_mux fails reads 0 m⟩

/-! ## Shutdown -/

/-- C8: run on a state left by a first run, the shutdown sequence (`disconnectAllClients`,
then `m.mudConn.Close()`) completes, calls `Close` on no client (the list it ranges over is
empty), only logs the error of the second `Close` of the upstream connection, and leaves the
state of the first run: client list empty, upstream connection closed. -/
theorem shutdown_idempotent (m : MUX) (closeFails closeFails2 : Bool) :
    (shutdown (shutdown m closeFails).1 closeFails2).1 = (shutdown m closeFails).1 ∧
    clientCloses (shutdown (shutdown m closeFails).1 closeFails2).2 = [] ∧
    (shutdown (shutdown m closeFails).1 closeFails2).2
      = [Event.log LogMsg.shuttingDown, Event.mudClose, Event.log LogMsg.errClosingMud] ∧
    clientCloses (shutdown m closeFails).2 = m.clients ∧
    (shutdown m closeFails).1.clients = [] ∧
    (shutdown m closeFails).1.mudClosed = true ∧
    (shutdown (shutdown m closeFails).1 closeFails2).1.clients = [] ∧
    (shutdown (shutdown m closeFails).1 closeFails2).1.mudClosed = true := by
  refine ⟨rfl, ?_, ?_, ?_, rfl, rfl, rfl, rfl⟩
  · simp [shutdown, disconnectAllClients, mudConnClose, closeLoop, clientCloses]
  · simp [shutdown, disconnectAllClients, mudConnClose, closeLoop]
  · simp only [shutdown, disconnectAllClients, mudConnClose]
    rw [List.cons_append]
    simp only [clientCloses, clientCloses_append, clientCloses_closeLoop]
    split <;> simp [clientCloses]

/-! ## Sequences of registry operations -/

theorem applyOp_register_clients (m : MUX) (c : Handle) :
    (applyOp m (Op.register c)).1.clients = m.clients ++ [c] := rfl

theorem applyOp_terminate_clients (m : MUX) (c : Handle) :
    (applyOp m (Op.terminate c)).1.clients = m.clients.erase c :=
  removeClient_clients m c

theorem applyOp_broadcast_mux (m : MUX) (d : Bytes) :
    (applyOp m (Op.broadcast d)).1 = m := rfl

theorem applyOp_nodup (m : MUX) (op : Op) (hnd : m.clients.Nodup)
    (hfresh : FreshRegistrations m [op] = true) : (applyOp m op).1.clients.Nodup := by
  cases op with
  | register c =>
    rw [applyOp_register_clients]
    have hc : c ∉ m.clients := by
      simp only [FreshRegistrations, Bool.and_eq_true, decide_eq_true_eq] at hfresh
      exact hfresh.1
    rw [List.nodup_append]
    refine ⟨hnd, List.nodup_singleton c, ?_⟩
    intro x hx hx2
    rw [List.mem_singleton] at hx2
    exact hc (hx2 ▸ hx)
  | terminate c =>
    rw [applyOp_terminate_clients]
    exact hnd.erase c
  | broadcast d => exact hnd

theorem FreshRegistrations_cons (m : MUX) (op : Op) (rest : List Op)
    (h : FreshRegistrations m (op :: rest) = true) :
    FreshRegistrations m [op] = true ∧ FreshRegistrations (applyOp m op).1 rest = true := by
  cases op with
  | register c =>
    simp only [FreshRegistrations, Bool.and_eq_true, decide_eq_true_eq] at h ⊢
    exact ⟨⟨h.1, trivial⟩, h.2⟩
  | terminate c =>
    simp only [FreshRegistrations] at h ⊢
    exact ⟨trivial, h⟩
  | broadcast d =>
    simp only [FreshRegistrations] at h ⊢
    exact ⟨trivial, h⟩

theorem runOps_nodup (ops : List Op) (m : MUX) (hnd : m.clients.Nodup)
    (hfresh : FreshRegistrations m ops = true) : (runOps m ops).1.clients.Nodup := by
  induction ops generalizing m with
  | nil => exact hnd
  | cons op rest ih =>
    obtain ⟨h1, h2⟩ := FreshRegistrations_cons m op rest hfresh
    exact ih (applyOp m op).1 (applyOp_nodup m op hnd h1) h2

theorem runOps_clients (ops : List Op) (m : MUX) (hnd : m.clients.Nodup)
    (hfresh : FreshRegistrations m ops = true) :
    (runOps m ops).1.clients
      = m.clients.filter (fun h => decide (Op.terminate h ∉ ops)) ++ liveSessions ops := by
  induction ops generalizing m with
  | nil => simp [runOps, liveSessions]
  | cons op rest ih =>
    obtain ⟨h1, h2⟩ := FreshRegistrations_cons m op rest hfresh
    have key := ih (applyOp m op).1 (applyOp_nodup m op hnd h1) h2
    simp only [runOps]
    rw [key]
    cases op with
    | register c =>
      rw [applyOp_register_clients, List.filter_append]
      by_cases hc : Op.terminate c ∈ rest
      · simp [liveSessions, hc]
      · simp [liveSessions, hc]
    | terminate c =>
      rw [applyOp_terminate_clients, hnd.erase_eq_filter, List.filter_filter]
      simp only [liveSessions]
      congr 1
      apply List.filter_congr
      intro x _
      by_cases hx : x = c
      · simp [hx]
      · simp [hx]
    | broadcast d =>
      rw [applyOp_broadcast_mux]
      simp [liveSessions]

/-- C2: starting from the empty client list of `NewMUX`, after any sequence of registrations
and session terminations (broadcasts may be interleaved) in which every registration
registers a handle not in the list at that moment, the client list is exactly the list of
handles of the sessions that have connected and not yet terminated, in connection order, and
holds no handle twice. -/
theorem client_list_is_live_sessions (ops : List Op)
    (hfresh : FreshRegistrations NewMUX ops = true) :
    (runOps NewMUX ops).1.clients = liveSessions ops ∧
    (runOps NewMUX ops).1.clients.Nodup ∧
    (∀ h, h ∈ (runOps NewMUX ops).1.clients ↔ h ∈ liveSessions ops) := by
  have hcl : (runOps NewMUX ops).1.clients = liveSessions ops := by
    have h := runOps_clients ops NewMUX (by simp [NewMUX]) hfresh
    simpa [NewMUX] using h
  exact ⟨hcl, runOps_nodup ops NewMUX (by simp [NewMUX]) hfresh, fun h => by rw [hcl]⟩

/-- Witness of C2: sessions 1, 2, 3 connect, session 1 terminates between the second and the
third connect, then a new session reuses handle 1. -/
theorem client_list_is_live_sessions_witness :
    FreshRegistrations NewMUX
      [Op.register 1, Op.register 2, Op.terminate 1, Op.register 3, Op.register 1] = true ∧
    (runOps NewMUX
      [Op.register 1, Op.register 2, Op.terminate 1, Op.register 3, Op.register 1]).1.clients
      = [2, 3, 1] :=
  ⟨by decide,
   (client_list_is_live_sessions
      [Op.register 1, Op.register 2, Op.terminate 1, Op.register 3, Op.register 1]
      (by decide)).1.trans (by decide)⟩

theorem delivered_broadcastLoop (h : Handle) (data : Bytes) (l : List Handle) (i : Nat)
    (hnd : l.Nodup) :
    delivered h (broadcastLoop data (fun _ => false) l i) = if h ∈ l then data else [] := by
  induction l generalizing i with
  | nil => rfl
  | cons c rest ih =>
    have hnd2 := List.nodup_cons.mp hnd
    simp only [broadcastLoop, Bool.false_eq_true, if_false, delivered]
    rw [ih (i + 1) hnd2.2]
    by_cases hc : c = h
    · subst hc
      simp [hnd2.1]
    · have hc2 : ¬ h = c := fun e => hc e.symm
      simp [hc, hc2]

theorem runOps_delivered (h : Handle) (ops : List Op) (m : MUX) (hnd : m.clients.Nodup)
    (hfresh : FreshRegistrations m ops = true) :
    delivered h (runOps m ops).2 = dueBytes h (decide (h ∈ m.clients)) ops := by
  induction ops generalizing m with
  | nil => rfl
  | cons op rest ih =>
    obtain ⟨h1, h2⟩ := FreshRegistrations_cons m op rest hfresh
    have key := ih (applyOp m op).1 (applyOp_nodup m op hnd h1) h2
    simp only [runOps, delivered_append]
    rw [key]
    cases op with
    | register c =>
      rw [applyOp_register_clients]
      have hflag : decide (h ∈ m.clients ++ [c]) = (decide (h ∈ m.clients) || decide (c = h)) := by
        by_cases e1 : h ∈ m.clients
        · simp [e1]
        · by_cases e2 : c = h
          · simp [e2]
          · have e3 : ¬ h = c := fun e => e2 e.symm
            simp [e1, e2, e3]
      rw [hflag]
      simp [applyOp, delivered, dueBytes]
    | terminate c =>
      rw [applyOp_terminate_clients]
      have hflag : decide (h ∈ m.clients.erase c)
          = (decide (h ∈ m.clients) && !decide (c = h)) := by
        have hiff : h ∈ m.clients.erase c ↔ h ≠ c ∧ h ∈ m.clients := hnd.mem_erase_iff
        by_cases e2 : c = h
        · have e3 : ¬ (h ∈ m.clients.erase c) := fun hm => (hiff.mp hm).1 e2.symm
          rw [decide_eq_false e3]
          simp [e2]
        · have e4 : h ≠ c := fun e => e2 e.symm
          by_cases e1 : h ∈ m.clients
          · have e3 : h ∈ m.clients.erase c := hiff.mpr ⟨e4, e1⟩
            simp only [e3, e1, e2, decide_False, decide_True, Bool.not_false, Bool.and_true]
          · have e3 : ¬ (h ∈ m.clients.erase c) := fun hm => e1 (hiff.mp hm).2
            simp only [e3, e1, e2, decide_False, Bool.not_false, Bool.and_true]
      rw [hflag]
      simp [applyOp, deferredCleanup, delivered, dueBytes]
    | broadcast d =>
      rw [applyOp_broadcast_mux]
      simp only [applyOp, broadcastToClients, dueBytes]
      rw [delivered_broadcastLoop h d m.clients 0 hnd]
      by_cases e1 : h ∈ m.clients <;> simp [e1]

/-- C6: after any interleaved sequence of registrations, deregistrations and broadcasts
whose client writes all succeed, the bytes written to each client are the concatenation, in
broadcast order, of exactly the chunks broadcast while that client was in the client list,
each once.  The sequences are those the program produces: the client list holds no handle
twice at the start, and every registration registers a handle that is not in the list at
that moment (line 163 passes each connection returned by `Accept` to `handleClient` once). -/
theorem delivered_is_chunks_while_registered (m : MUX) (ops : List Op) (h : Handle)
    (hnd : m.clients.Nodup) (hfresh : FreshRegistrations m ops = true) :
    delivered h (runOps m ops).2 = dueBytes h (decide (h ∈ m.clients)) ops :=
  runOps_delivered h ops m hnd hfresh

/-- Witness of C6: A (handle 1) registers, "Welcome\n" is broadcast, B (handle 2) registers,
"Room update\n" is broadcast: A has been sent "Welcome\nRoom update\n" and B has been sent
"Room update\n". -/
theorem delivered_is_chunks_while_registered_witness :
    (NewMUX.clients.Nodup ∧
     FreshRegistrations NewMUX
      [Op.register 1, Op.broadcast [87, 101, 108, 99, 111, 109, 101, 10], Op.register 2,
       Op.broadcast [82, 111, 111, 109, 32, 117, 112, 100, 97, 116, 101, 10]] = true) ∧
    delivered 1 (runOps NewMUX
      [Op.register 1, Op.broadcast [87, 101, 108, 99, 111, 109, 101, 10], Op.register 2,
       Op.broadcast [82, 111, 111, 109, 32, 117, 112, 100, 97, 116, 101, 10]]).2
      = [87, 101, 108, 99, 111, 109, 101, 10,
         82, 111, 111, 109, 32, 117, 112, 100, 97, 116, 101, 10] ∧
    delivered 2 (runOps NewMUX
      [Op.register 1, Op.broadcast [87, 101, 108, 99, 111, 109, 101, 10], Op.register 2,
       Op.broadcast [82, 111, 111, 109, 32, 117, 112, 100, 97, 116, 101, 10]]).2
      = [82, 111, 111, 109, 32, 117, 112, 100, 97, 116, 101, 10] :=
  ⟨⟨List.nodup_nil, by decide⟩,
   (delivered_is_chunks_while_registered NewMUX
      [Op.register 1, Op.broadcast [87, 101, 108, 99, 111, 109, 101, 10], Op.register 2,
       Op.broadcast [82, 111, 111, 109, 32, 117, 112, 100, 97, 116, 101, 10]] 1
      List.nodup_nil (by decide)).trans (by decide),
   (delivered_is_chunks_while_registered NewMUX
      [Op.register 1, Op.broadcast [87, 101, 108, 99, 111, 109, 101, 10], Op.register 2,
       Op.broadcast [82, 111, 111, 109, 32, 117, 112, 100, 97, 116, 101, 10]] 2
      List.nodup_nil (by decide)).trans (by decide)⟩

/-! ## The mutex discipline -/

theorem run_unlocked_clients (env : Env) (t : Nat) (m : MUX) (mu : Option Nat)
    (g : Goroutine) (e : Effect) (hrun : g.run env t m mu = some e)
    (hg : g.locked = false) : e.mux.clients = m.clients := by
  unfold Goroutine.run at hrun
  split at hrun <;> simp_all [Goroutine.locked, mudConnClose] <;>
    first
      | (obtain rfl := hrun; rfl)
      | (obtain ⟨_, rfl⟩ := hrun; rfl)
      | (split at hrun <;> simp at hrun <;> (obtain rfl := hrun; rfl))

theorem run_broadcast_mux (env : Env) (t : Nat) (m : MUX) (mu : Option Nat)
    (g : Goroutine) (e : Effect) (hrun : g.run env t m mu = some e)
    (hg : g.inBroadcast = true) : e.mux = m := by
  unfold Goroutine.run at hrun
  split at hrun <;> simp_all [Goroutine.inBroadcast] <;> (obtain rfl := hrun; rfl)

theorem run_mu (env : Env) (t : Nat) (m : MUX) (mu : Option Nat)
    (g : Goroutine) (e : Effect) (hrun : g.run env t m mu = some e) :
    (g.locked = false → e.next.locked = false → e.mu = mu) ∧
    (g.locked = false → e.next.locked = true → mu = none ∧ e.mu = some t) ∧
    (g.locked = true → e.next.locked = true → e.mu = mu) ∧
    (g.locked = true → e.next.locked = false → e.mu = none) := by
  unfold Goroutine.run at hrun
  split at hrun <;> simp_all [Goroutine.locked] <;>
    first
      | (obtain rfl := hrun; simp [Goroutine.locked])
      | (obtain ⟨h1, rfl⟩ := hrun; simp [Goroutine.locked, h1])
      | (split at hrun <;> simp at hrun <;> (obtain rfl := hrun; simp [Goroutine.locked]))

theorem run_spawned (env : Env) (t : Nat) (m : MUX) (mu : Option Nat)
    (g : Goroutine) (e : Effect) (hrun : g.run env t m mu = some e) :
    (∀ g2, g2 ∈ e.spawned → g2.locked = false) ∧ (e.spawned ≠ [] → e.mu = mu) := by
  unfold Goroutine.run at hrun
  split at hrun <;> simp_all [Goroutine.locked] <;>
    first
      | (obtain rfl := hrun; simp [Goroutine.locked])
      | (obtain ⟨h1, rfl⟩ := hrun; simp [Goroutine.locked])
      | (split at hrun <;> simp at hrun <;> (obtain rfl := hrun; simp [Goroutine.locked]))

theorem run_independent (env : Env) (t : Nat) (m : MUX) (mu : Option Nat)
    (g : Goroutine) (e : Effect) (hrun : g.run env t m mu = some e)
    (hg : g.locked = false) (l : List Handle) :
    g.run env t { m with clients := l } mu
      = some { e with mux := { e.mux with clients := l } } := by
  unfold Goroutine.run at hrun ⊢
  split at hrun <;> simp_all [Goroutine.locked, mudConnClose] <;>
    first
      | (obtain rfl := hrun; simp)
      | (obtain ⟨_, rfl⟩ := hrun; simp)
      | (split at hrun <;> simp at hrun <;> (obtain rfl := hrun; simp_all))

theorem run_to_bcWrite (env : Env) (t : Nat) (m : MUX) (mu : Option Nat)
    (g : Goroutine) (e : Effect) (hrun : g.run env t m mu = some e)
    (data : Bytes) (todo : List Handle) (i : Nat) (reads : List ReadResult) (k : Nat)
    (hnext : e.next = Goroutine.bcWrite data todo i reads k) :
    e.mux = m ∧
    ((i = 0 ∧ todo = m.clients ∧ g = Goroutine.bcRange data reads k) ∨
     (∃ c j, g = Goroutine.bcWrite data (c :: todo) j reads k ∧ i = j + 1)) := by
  unfold Goroutine.run at hrun
  split at hrun
  all_goals
    first
      | (simp only [Option.some.injEq] at hrun
         subst hrun
         simp only [Goroutine.bcWrite.injEq] at hnext
         obtain ⟨rfl, rfl, rfl, rfl, rfl⟩ := hnext
         exact ⟨rfl, Or.inl ⟨rfl, rfl, rfl⟩⟩)
      | (simp only [Option.some.injEq] at hrun
         subst hrun
         simp only [Goroutine.bcWrite.injEq] at hnext
         obtain ⟨rfl, rfl, rfl, rfl, rfl⟩ := hnext
         exact ⟨rfl, Or.inr ⟨_, _, rfl, rfl⟩⟩)
      | (simp only [Option.some.injEq] at hrun
         subst hrun
         simp at hnext)
      | (split at hrun <;>
          first
            | (simp only [Option.some.injEq] at hrun; subst hrun; simp at hnext)
            | (simp at hrun))
      | (simp at hrun)

theorem step_some (env : Env) (s s2 : Sys) (t : Nat) (hstep : step env s t = some s2) :
    ∃ g e, s.goroutines[t]? = some g ∧ g.run env t s.mux s.mu = some e ∧
      s2.mux = e.mux ∧ s2.mu = e.mu ∧
      s2.goroutines = s.goroutines.set t e.next ++ e.spawned := by
  unfold step at hstep
  split at hstep
  · simp at hstep
  · split at hstep
    · simp at hstep
    · rename_i g hg
      split at hstep
      · simp at hstep
      · rename_i e he
        simp only [Option.some.injEq] at hstep
        subst hstep
        exact ⟨g, e, hg, he, rfl, rfl, rfl⟩

theorem lookup_after_step (l sp : List Goroutine) (t j : Nat) (x g : Goroutine)
    (ht : t < l.length) (h : (l.set t x ++ sp)[j]? = some g) :
    (j = t ∧ g = x) ∨ (j ≠ t ∧ j < l.length ∧ l[j]? = some g) ∨
    (l.length ≤ j ∧ g ∈ sp) := by
  by_cases hj : j < l.length
  · rw [List.getElem?_append_left (by simpa using hj)] at h
    by_cases hjt : t = j
    · subst hjt
      rw [List.getElem?_set_self ht] at h
      simp only [Option.some.injEq] at h
      exact Or.inl ⟨rfl, h.symm⟩
    · rw [List.getElem?_set_ne hjt] at h
      exact Or.inr (Or.inl ⟨fun e => hjt e.symm, hj, h⟩)
  · have hj2 : (l.set t x).length ≤ j := by simpa using hj
    rw [List.getElem?_append_right hj2] at h
    exact Or.inr (Or.inr ⟨by omega, List.mem_iff_getElem?.mpr ⟨_, h⟩⟩)

theorem step_preserves_inv (env : Env) (s s2 : Sys) (t : Nat)
    (hinv : MutexInv s) (hstep : step env s t = some s2) : MutexInv s2 := by
  obtain ⟨g, e, hg, hrun, hmux, hmu, hgs⟩ := step_some env s s2 t hstep
  obtain ⟨hlock, hholder, htodo⟩ := hinv
  have ht : t < s.goroutines.length := by
    by_contra hcon
    rw [List.getElem?_eq_none (by omega)] at hg
    simp at hg
  obtain ⟨hm1, hm2, hm3, hm4⟩ := run_mu env t s.mux s.mu g e hrun
  obtain ⟨hsp1, hsp2⟩ := run_spawned env t s.mux s.mu g e hrun
  have hgl := hlock t g hg
  refine ⟨?_, ?_, ?_⟩
  · intro j g2 hj
    rw [hgs] at hj
    rw [hmu]
    rcases lookup_after_step _ _ t j e.next g2 ht hj with ⟨hjt, hg2⟩ | ⟨hjt, hjl, hj2⟩ | ⟨hjl, hj2⟩
    · rw [hjt, hg2]
      cases hgb : g.locked <;> cases hnb : e.next.locked
      · rw [hm1 hgb hnb]
        rw [hgb] at hgl
        simpa using hgl
      · rw [(hm2 hgb hnb).2]
        simp
      · rw [hm4 hgb hnb]
        simp
      · rw [hm3 hgb hnb]
        exact ⟨fun _ => hgl.mp hgb, fun _ => rfl⟩
    · have hj3 := hlock j g2 hj2
      rw [hj3]
      cases hgb : g.locked <;> cases hnb : e.next.locked
      · rw [hm1 hgb hnb]
      · obtain ⟨h1, h2⟩ := hm2 hgb hnb
        rw [h1, h2]
        simp only [Option.some.injEq, reduceCtorEq, false_iff]
        exact fun e2 => hjt e2.symm
      · rw [hm4 hgb hnb, hgl.mp hgb]
        simp only [Option.some.injEq, reduceCtorEq, iff_false]
        exact fun e2 => hjt e2.symm
      · rw [hm3 hgb hnb]
    · have hne : e.spawned ≠ [] := List.ne_nil_of_mem hj2
      rw [hsp2 hne, hsp1 g2 hj2]
      constructor
      · intro h
        simp at h
      · intro h
        have := hholder j h
        omega
  · intro j hj
    rw [hmu] at hj
    rw [hgs]
    simp only [List.length_append, List.length_set]
    have hcases : e.mu = s.mu ∨ e.mu = some t ∨ e.mu = none := by
      cases hgb : g.locked <;> cases hnb : e.next.locked
      · exact Or.inl (hm1 hgb hnb)
      · exact Or.inr (Or.inl (hm2 hgb hnb).2)
      · exact Or.inr (Or.inr (hm4 hgb hnb))
      · exact Or.inl (hm3 hgb hnb)
    rcases hcases with h | h | h
    · rw [h] at hj
      have := hholder j hj
      omega
    · rw [h] at hj
      simp only [Option.some.injEq] at hj
      omega
    · rw [h] at hj
      simp at hj
  · intro b data todo i reads k hb
    rw [hgs] at hb
    rw [hmux]
    rcases lookup_after_step _ _ t b e.next _ ht hb with ⟨hbt, hnx⟩ | ⟨hbt, hbl, hb2⟩ | ⟨hbl, hb2⟩
    · obtain ⟨hm, hcase⟩ := run_to_bcWrite env t s.mux s.mu g e hrun data todo i reads k hnx.symm
      rw [hm]
      rcases hcase with ⟨hi, htd, _⟩ | ⟨c, j, hgeq, hi⟩
      · rw [hi, htd]
        rfl
      · rw [hgeq] at hg
        have hprev := htodo t data (c :: todo) j reads k hg
        rw [hi, ← List.drop_drop, hprev]
        rfl
    · have hbh : s.mu = some b := (hlock b _ hb2).mp rfl
      have hgn : g.locked = false := by
        cases hgb : g.locked
        · rfl
        · have := hgl.mp hgb
          rw [hbh] at this
          simp only [Option.some.injEq] at this
          exact absurd this hbt
      rw [run_unlocked_clients env t s.mux s.mu g e hrun hgn]
      exact htodo b data todo i reads k hb2
    · have := hsp1 _ hb2
      simp [Goroutine.locked] at this

theorem startSys_inv (upstream : List ReadResult)
    (accepts : List (Option (Handle × List ReadResult))) :
    MutexInv (startSys upstream accepts) := by
  refine ⟨?_, ?_, ?_⟩
  · intro t g hg
    simp only [startSys] at hg ⊢
    match t, hg with
    | 0, hg => simp at hg; subst hg; simp [Goroutine.locked]
    | 1, hg => simp at hg; subst hg; simp [Goroutine.locked]
    | 2, hg => simp at hg; subst hg; simp [Goroutine.locked]
    | n + 3, hg => simp at hg
  · intro t ht
    simp [startSys] at ht
  · intro b data todo i reads k hb
    simp only [startSys] at hb
    match b, hb with
    | 0, hb => simp at hb
    | 1, hb => simp at hb
    | 2, hb => simp at hb
    | n + 3, hb => simp at hb

theorem exec_inv (env : Env) (sched : List Nat) (s : Sys) (hinv : MutexInv s) :
    MutexInv (exec env s sched) := by
  induction sched generalizing s with
  | nil => exact hinv
  | cons t rest ih =>
    simp only [exec]
    cases hstep : step env s t with
    | none => exact ih s hinv
    | some s2 => exact ih s2 (step_preserves_inv env s s2 t hinv hstep)

theorem step_unlocked_independent (env : Env) (s s2 : Sys) (t : Nat)
    (hinv : MutexInv s) (hstep : step env s t = some s2) (hmu : s.mu ≠ some t) :
    s2.mux.clients = s.mux.clients ∧
    ∀ l, step env (s.withClients l) t = some (s2.withClients l) := by
  obtain ⟨g, e, hg, hrun, hmux, _, _⟩ := step_some env s s2 t hstep
  have hgn : g.locked = false := by
    cases hgb : g.locked
    · rfl
    · exact absurd ((hinv.1 t g hg).mp hgb) hmu
  refine ⟨by rw [hmux]; exact run_unlocked_clients env t s.mux s.mu g e hrun hgn, ?_⟩
  intro l
  have hind := run_independent env t s.mux s.mu g e hrun hgn l
  unfold step at hstep ⊢
  cases hex : s.exited
  · rw [hex] at hstep
    simp only [Bool.false_eq_true, if_false, hg, hrun, Option.some.injEq] at hstep
    subst hstep
    simp only [Sys.withClients, hex, Bool.false_eq_true, if_false, hg, hind]
  · rw [hex] at hstep
    simp at hstep

theorem step_in_broadcast_clients (env : Env) (s s2 : Sys) (b t : Nat) (g : Goroutine)
    (hinv : MutexInv s) (hb : s.goroutines[b]? = some g) (hg : g.inBroadcast = true)
    (hstep : step env s t = some s2) : s2.mux.clients = s.mux.clients := by
  have hlocked : g.locked = true := by
    cases g <;> simp_all [Goroutine.inBroadcast, Goroutine.locked]
  have hholder : s.mu = some b := (hinv.1 b g hb).mp hlocked
  by_cases htb : t = b
  · subst htb
    obtain ⟨g2, e, hg2, hrun, hmux, _, _⟩ := step_some env s s2 t hstep
    rw [hb] at hg2
    simp only [Option.some.injEq] at hg2
    subst hg2
    rw [hmux, run_broadcast_mux env t s.mux s.mu g e hrun hg]
  · have hne : s.mu ≠ some t := by
      rw [hholder]
      simp only [ne_eq, Option.some.injEq]
      exact fun e => htb e.symm
    exact (step_unlocked_independent env s s2 t hinv hstep hne).1

/-- C10: in every state the process can reach under any schedule of its goroutines
(accept loop, `readFromMUD`, shutdown, one `handleClient` per accepted connection):
a step of a goroutine that does not hold the mutex neither changes the client list nor
depends on it, so every read and every mutation of the list is made by the holder; at most
one goroutine is between a `Lock` and its `Unlock`; a goroutine inside `broadcastToClients`
holds the mutex from before its first member write until after its last, and while it is
there no step of any goroutine changes the client list; the members it has still to write
to are the current client list from its index on. -/
theorem client_list_accessed_under_mutex (env : Env) (upstream : List ReadResult)
    (accepts : List (Option (Handle × List ReadResult))) (sched : List Nat) :
    (∀ t s2, step env (reach env upstream accepts sched) t = some s2 →
      (reach env upstream accepts sched).mu ≠ some t →
      s2.mux.clients = (reach env upstream accepts sched).mux.clients ∧
      ∀ l, step env ((reach env upstream accepts sched).withClients l) t
        = some (s2.withClients l)) ∧
    (∀ (t1 t2 : Nat) (g1 g2 : Goroutine),
      (reach env upstream accepts sched).goroutines[t1]? = some g1 →
      (reach env upstream accepts sched).goroutines[t2]? = some g2 →
      g1.locked = true → g2.locked = true → t1 = t2) ∧
    (∀ (b : Nat) (g : Goroutine),
      (reach env upstream accepts sched).goroutines[b]? = some g → g.inBroadcast = true →
      (reach env upstream accepts sched).mu = some b ∧
      ∀ t s2, step env (reach env upstream accepts sched) t = some s2 →
        s2.mux.clients = (reach env upstream accepts sched).mux.clients) ∧
    (∀ (b : Nat) (data : Bytes) (todo : List Handle) (i : Nat) (reads : List ReadResult)
      (k : Nat),
      (reach env upstream accepts sched).goroutines[b]?
        = some (Goroutine.bcWrite data todo i reads k) →
      (reach env upstream accepts sched).mux.clients.drop i = todo) := by
  have hinv : MutexInv (reach env upstream accepts sched) :=
    exec_inv env sched (startSys upstream accepts) (startSys_inv upstream accepts)
  refine ⟨?_, ?_, ?_, hinv.2.2⟩
  · intro t s2 hstep hmu
    exact step_unlocked_independent env _ s2 t hinv hstep hmu
  · intro t1 t2 g1 g2 h1 h2 hl1 hl2
    have e1 := (hinv.1 t1 g1 h1).mp hl1
    have e2 := (hinv.1 t2 g2 h2).mp hl2
    rw [e1] at e2
    simpa using e2
  · intro b g hb hg
    have hlocked : g.locked = true := by
      cases g <;> simp_all [Goroutine.inBroadcast, Goroutine.locked]
    exact ⟨(hinv.1 b g hb).mp hlocked,
      fun t s2 hstep => step_in_broadcast_clients env _ s2 b t g hinv hb hg hstep⟩

/-- Witness of C10: two clients (handles 7 and 8) are accepted and register, then
`readFromMUD` reads the chunk `[1]` and has written it to the first member: it holds the
mutex, the member still to visit is the rest of the client list, and while it stands there
the `Lock` of a newly accepted `handleClient` cannot be executed. -/
theorem client_list_accessed_under_mutex_witness :
    (reach ⟨fun _ _ => false, fun _ _ => false, false⟩ [ReadResult.chunk [1]]
      [some (7, []), some (8, []), some (9, [])]
      [0, 0, 3, 3, 3, 4, 4, 4, 1, 1, 1, 1, 0]).goroutines[1]?
      = some (Goroutine.bcWrite [1] [8] 1 [] 0) ∧
    (reach ⟨fun _ _ => false, fun _ _ => false, false⟩ [ReadResult.chunk [1]]
      [some (7, []), some (8, []), some (9, [])]
      [0, 0, 3, 3, 3, 4, 4, 4, 1, 1, 1, 1, 0]).mu = some 1 ∧
    (reach ⟨fun _ _ => false, fun _ _ => false, false⟩ [ReadResult.chunk [1]]
      [some (7, []), some (8, []), some (9, [])]
      [0, 0, 3, 3, 3, 4, 4, 4, 1, 1, 1, 1, 0]).mux.clients = [7, 8] ∧
    (reach ⟨fun _ _ => false, fun _ _ => false, false⟩ [ReadResult.chunk [1]]
      [some (7, []), some (8, []), some (9, [])]
      [0, 0, 3, 3, 3, 4, 4, 4, 1, 1, 1, 1, 0]).mux.clients.drop 1 = [8] ∧
    (step ⟨fun _ _ => false, fun _ _ => false, false⟩
      (reach ⟨fun _ _ => false, fun _ _ => false, false⟩ [ReadResult.chunk [1]]
        [some (7, []), some (8, []), some (9, [])]
        [0, 0, 3, 3, 3, 4, 4, 4, 1, 1, 1, 1, 0]) 5).isNone = true :=
  ⟨rfl,
   ((client_list_accessed_under_mutex ⟨fun _ _ => false, fun _ _ => false, false⟩
      [ReadResult.chunk [1]] [some (7, []), some (8, []), some (9, [])]
      [0, 0, 3, 3, 3, 4, 4, 4, 1, 1, 1, 1, 0]).2.2.1 1 _ rfl rfl).1,
   rfl,
   (client_list_accessed_under_mutex ⟨fun _ _ => false, fun _ _ => false, false⟩
      [ReadResult.chunk [1]] [some (7, []), some (8, []), some (9, [])]
      [0, 0, 3, 3, 3, 4, 4, 4, 1, 1, 1, 1, 0]).2.2.2 1 [1] [8] 1 [] 0 rfl,
   rfl⟩

/-! ## A goroutine running alone does what the method does -/

theorem step_of_run (env : Env) (s : Sys) (t : Nat) (g : Goroutine) (e : Effect)
    (hex : s.exited = false) (hg : s.goroutines[t]? = some g)
    (hrun : g.run env t s.mux s.mu = some e) :
    step env s t = some
      { mux := e.mux
        mu := e.mu
        goroutines := s.goroutines.set t e.next ++ e.spawned
        trace := s.trace ++ e.events
        exited := e.exits } := by
  unfold step
  simp only [hex, Bool.false_eq_true, if_false, hg, hrun]

theorem exec_append (env : Env) (a b : List Nat) (s : Sys) :
    exec env s (a ++ b) = exec env (exec env s a) b := by
  induction a generalizing s with
  | nil => rfl
  | cons t rest ih =>
    simp only [List.cons_append, exec]
    cases step env s t with
    | none => exact ih s
    | some s2 => exact ih s2

theorem lookup_set_self (l : List Goroutine) (t : Nat) (g x : Goroutine)
    (hg : l[t]? = some g) : (l.set t x)[t]? = some x := by
  have ht : t < l.length := by
    by_contra hcon
    rw [List.getElem?_eq_none (by omega)] at hg
    simp at hg
  exact List.getElem?_set_self ht

theorem exec_cons_some (env : Env) (s s2 : Sys) (t : Nat) (rest : List Nat)
    (hstep : step env s t = some s2) : exec env s (t :: rest) = exec env s2 rest := by
  simp only [exec, hstep]

theorem solo_bcWrite (env : Env) (t : Nat) (data : Bytes) (reads : List ReadResult) (k : Nat)
    (todo : List Handle) (i : Nat) (s : Sys) (hex : s.exited = false)
    (hg : s.goroutines[t]? = some (Goroutine.bcWrite data todo i reads k)) :
    exec env s (List.replicate (todo.length + 1) t)
      = { s with goroutines := s.goroutines.set t (Goroutine.bcUnlock reads k),
                 trace := s.trace ++ broadcastLoop data (env.fails k) todo i } := by
  induction todo generalizing i s with
  | nil =>
    have hstep := step_of_run env s t _ _ hex hg (by simp only [Goroutine.run]; rfl)
    dsimp only at hstep
    rw [List.length_nil, Nat.zero_add, List.replicate_one, exec_cons_some env _ _ _ _ hstep]
    simp only [exec, broadcastLoop, List.append_nil, hex]
  | cons c rest ih =>
    have hstep := step_of_run env s t _ _ hex hg (by simp only [Goroutine.run]; rfl)
    dsimp only at hstep
    rw [List.length_cons, List.replicate_succ, exec_cons_some env _ _ _ _ hstep]
    rw [ih (i + 1) _ rfl (by
      simp only [List.append_nil]
      exact lookup_set_self _ _ _ _ hg)]
    simp only [List.append_nil, List.set_set, broadcastLoop, List.append_assoc, hex]
    cases h : env.fails k i <;> simp

/-- A `broadcastToClients(data)` executed without interleaving, from `Lock` to `Unlock`,
has the effect of the method `broadcastToClients`. -/
theorem solo_broadcast (env : Env) (t : Nat) (data : Bytes) (reads : List ReadResult)
    (k : Nat) (s : Sys) (hex : s.exited = false) (hmu : s.mu = none)
    (hg : s.goroutines[t]? = some (Goroutine.bcLock data reads k)) :
    exec env s (t :: t :: (List.replicate (s.mux.clients.length + 1) t ++ [t]))
      = { s with mux := (broadcastToClients s.mux data (env.fails k)).1,
                 goroutines := s.goroutines.set t (Goroutine.rmRead reads (k + 1)),
                 trace := s.trace ++ (broadcastToClients s.mux data (env.fails k)).2 } := by
  have h1 := step_of_run env s t _ _ hex hg (by simp only [Goroutine.run, hmu, if_true]; rfl)
  simp only [List.append_nil] at h1
  rw [exec_cons_some env _ _ _ _ h1]
  have h2 := step_of_run env
    { mux := s.mux, mu := some t,
      goroutines := s.goroutines.set t (Goroutine.bcRange data reads k),
      trace := s.trace, exited := false } t _ _ rfl (lookup_set_self _ _ _ _ hg)
    (by simp only [Goroutine.run]; rfl)
  simp only [List.append_nil, List.set_set] at h2
  rw [exec_cons_some env _ _ _ _ h2, exec_append]
  rw [solo_bcWrite env t data reads k s.mux.clients 0 _ rfl (lookup_set_self _ _ _ _ hg)]
  have h3 := step_of_run env
    { mux := s.mux, mu := some t,
      goroutines := s.goroutines.set t (Goroutine.bcUnlock reads k),
      trace := s.trace ++ broadcastLoop data (env.fails k) s.mux.clients 0,
      exited := false } t _ _ rfl (lookup_set_self _ _ _ _ hg)
    (by simp only [Goroutine.run]; rfl)
  simp only [List.append_nil, List.set_set] at h3
  simp only [List.set_set]
  rw [exec_cons_some env _ _ _ _ h3]
  simp only [exec, broadcastToClients, hmu, hex]

theorem solo_relay (env : Env) (t : Nat) (conn : Handle) (reads : List ReadResult) (k : Nat)
    (s : Sys) (hex : s.exited = false)
    (hg : s.goroutines[t]? = some (Goroutine.hcRelay conn reads k))
    (hret : (relayLoop (env.wfail conn) reads k).2 = LoopStatus.returned) :
    ∃ n, exec env s (List.replicate n t)
      = { s with goroutines := s.goroutines.set t (Goroutine.hcClose conn),
                 trace := s.trace ++ (relayLoop (env.wfail conn) reads k).1 } := by
  induction reads generalizing k s with
  | nil => simp [relayLoop] at hret
  | cons r rest ih =>
    cases r with
    | err e =>
      by_cases hto : e.isTimeout = true
      · have hstep := step_of_run env s t _ _ hex hg
          (by simp only [Goroutine.run, hto, if_true]; rfl)
        simp only [List.append_nil] at hstep
        simp only [relayLoop, hto, if_true] at hret ⊢
        obtain ⟨n, hn⟩ := ih k
          { mux := s.mux, mu := s.mu,
            goroutines := s.goroutines.set t (Goroutine.hcRelay conn rest k),
            trace := s.trace, exited := false } rfl (lookup_set_self _ _ _ _ hg) hret
        refine ⟨n + 1, ?_⟩
        rw [List.replicate_succ, exec_cons_some env _ _ _ _ hstep, hn]
        simp only [List.set_set, hex]
      · have hstep := step_of_run env s t _ _ hex hg
          (by simp only [Goroutine.run, hto, Bool.false_eq_true, if_false]; rfl)
        simp only [List.append_nil] at hstep
        refine ⟨1, ?_⟩
        rw [List.replicate_one, exec_cons_some env _ _ _ _ hstep]
        simp only [exec, relayLoop, hto, Bool.false_eq_true, if_false, hex]
    | chunk data =>
      by_cases hwf : env.wfail conn k = true
      · have hstep := step_of_run env s t _ _ hex hg
          (by simp only [Goroutine.run, hwf, if_true]; rfl)
        simp only [List.append_nil] at hstep
        refine ⟨1, ?_⟩
        rw [List.replicate_one, exec_cons_some env _ _ _ _ hstep]
        simp only [exec, relayLoop, hwf, if_true, hex]
      · have hstep := step_of_run env s t _ _ hex hg
          (by simp only [Goroutine.run, hwf, Bool.false_eq_true, if_false]; rfl)
        simp only [List.append_nil] at hstep
        simp only [relayLoop, hwf, Bool.false_eq_true, if_false] at hret ⊢
        obtain ⟨n, hn⟩ := ih (k + 1)
          { mux := s.mux, mu := s.mu,
            goroutines := s.goroutines.set t (Goroutine.hcRelay conn rest (k + 1)),
            trace := s.trace ++ [Event.log (LogMsg.clientToMud data), Event.mudWrite data],
            exited := false } rfl (lookup_set_self _ _ _ _ hg) hret
        refine ⟨n + 1, ?_⟩
        rw [List.replicate_succ, exec_cons_some env _ _ _ _ hstep, hn]
        simp only [List.set_set, List.append_assoc, List.cons_append, List.nil_append, hex]

/-- A `handleClient(conn)` executed without interleaving, whose relay loop returns, has the
effect of the method `handleClient`. -/
theorem solo_handleClient (env : Env) (t : Nat) (conn : Handle) (reads : List ReadResult)
    (s : Sys) (hex : s.exited = false) (hmu : s.mu = none)
    (hg : s.goroutines[t]? = some (Goroutine.hcLock conn reads))
    (hret : (relayLoop (env.wfail conn) reads 0).2 = LoopStatus.returned) :
    ∃ n, exec env s (List.replicate n t)
      = { s with mux := (handleClient s.mux conn reads (env.wfail conn)).mux,
                 goroutines := s.goroutines.set t Goroutine.finished,
                 trace := s.trace ++ (handleClient s.mux conn reads (env.wfail conn)).trace } := by
  have h1 := step_of_run env s t _ _ hex hg (by simp only [Goroutine.run, hmu, if_true]; rfl)
  simp only [List.append_nil] at h1
  have h2 := step_of_run env
    { mux := s.mux, mu := some t, goroutines := s.goroutines.set t (Goroutine.hcAppend conn reads),
      trace := s.trace, exited := false } t _ _ rfl (lookup_set_self _ _ _ _ hg)
    (by simp only [Goroutine.run]; rfl)
  simp only [List.append_nil, List.set_set] at h2
  have h3 := step_of_run env
    { mux := registerClient s.mux conn, mu := some t,
      goroutines := s.goroutines.set t (Goroutine.hcUnlock conn reads),
      trace := s.trace, exited := false } t _ _ rfl (lookup_set_self _ _ _ _ hg)
    (by simp only [Goroutine.run]; rfl)
  simp only [List.append_nil, List.set_set] at h3
  have h4 := step_of_run env
    { mux := registerClient s.mux conn, mu := none,
      goroutines := s.goroutines.set t (Goroutine.hcLogNew conn reads),
      trace := s.trace, exited := false } t _ _ rfl (lookup_set_self _ _ _ _ hg)
    (by simp only [Goroutine.run]; rfl)
  simp only [List.append_nil, List.set_set] at h4
  obtain ⟨n, hn⟩ := solo_relay env t conn reads 0
    { mux := registerClient s.mux conn, mu := none,
      goroutines := s.goroutines.set t (Goroutine.hcRelay conn reads 0),
      trace := s.trace ++ [Event.log (LogMsg.newClient conn)], exited := false }
    rfl (lookup_set_self _ _ _ _ hg) hret
  simp only [List.set_set] at hn
  have h5 := step_of_run env
    { mux := registerClient s.mux conn, mu := none,
      goroutines := s.goroutines.set t (Goroutine.hcClose conn),
      trace := (s.trace ++ [Event.log (LogMsg.newClient conn)])
        ++ (relayLoop (env.wfail conn) reads 0).1, exited := false } t _ _ rfl
    (lookup_set_self _ _ _ _ hg) (by simp only [Goroutine.run]; rfl)
  simp only [List.append_nil, List.set_set] at h5
  have h6 := step_of_run env
    { mux := registerClient s.mux conn, mu := none,
      goroutines := s.goroutines.set t (Goroutine.hcCleanupLock conn),
      trace := ((s.trace ++ [Event.log (LogMsg.newClient conn)])
        ++ (relayLoop (env.wfail conn) reads 0).1) ++ [Event.clientClose conn],
      exited := false } t _ _ rfl
    (lookup_set_self _ _ _ _ hg) (by simp only [Goroutine.run, if_true]; rfl)
  simp only [List.append_nil, List.set_set] at h6
  have h7 := step_of_run env
    { mux := registerClient s.mux conn, mu := some t,
      goroutines := s.goroutines.set t (Goroutine.hcCleanupScan conn),
      trace := ((s.trace ++ [Event.log (LogMsg.newClient conn)])
        ++ (relayLoop (env.wfail conn) reads 0).1) ++ [Event.clientClose conn],
      exited := false } t _ _ rfl
    (lookup_set_self _ _ _ _ hg) (by simp only [Goroutine.run]; rfl)
  simp only [List.append_nil, List.set_set] at h7
  have h8 := step_of_run env
    { mux := removeClient (registerClient s.mux conn) conn, mu := some t,
      goroutines := s.goroutines.set t (Goroutine.hcCleanupUnlock conn),
      trace := ((s.trace ++ [Event.log (LogMsg.newClient conn)])
        ++ (relayLoop (env.wfail conn) reads 0).1) ++ [Event.clientClose conn],
      exited := false } t _ _ rfl
    (lookup_set_self _ _ _ _ hg) (by simp only [Goroutine.run]; rfl)
  simp only [List.append_nil, List.set_set] at h8
  have h9 := step_of_run env
    { mux := removeClient (registerClient s.mux conn) conn, mu := none,
      goroutines := s.goroutines.set t (Goroutine.hcCleanupLog conn),
      trace := ((s.trace ++ [Event.log (LogMsg.newClient conn)])
        ++ (relayLoop (env.wfail conn) reads 0).1) ++ [Event.clientClose conn],
      exited := false } t _ _ rfl
    (lookup_set_self _ _ _ _ hg) (by simp only [Goroutine.run]; rfl)
  simp only [List.append_nil, List.set_set] at h9
  refine ⟨4 + (n + 5), ?_⟩
  rw [← List.append_replicate_replicate, ← List.append_replicate_replicate, exec_append,
    exec_append]
  have e4 : exec env s (List.replicate 4 t)
      = { mux := registerClient s.mux conn, mu := none,
          goroutines := s.goroutines.set t (Goroutine.hcRelay conn reads 0),
          trace := s.trace ++ [Event.log (LogMsg.newClient conn)], exited := false } := by
    show exec env s [t, t, t, t] = _
    rw [exec_cons_some env _ _ _ _ h1, exec_cons_some env _ _ _ _ h2,
      exec_cons_some env _ _ _ _ h3, exec_cons_some env _ _ _ _ h4]
    rfl
  rw [e4, hn]
  show exec env _ [t, t, t, t, t] = _
  rw [exec_cons_some env _ _ _ _ h5, exec_cons_some env _ _ _ _ h6,
    exec_cons_some env _ _ _ _ h7, exec_cons_some env _ _ _ _ h8,
    exec_cons_some env _ _ _ _ h9]
  simp only [exec, handleClient, hret, deferredCleanup, hmu, hex, List.append_assoc,
    List.cons_append, List.nil_append, List.singleton_append]

theorem solo_daClose (env : Env) (t : Nat) (todo : List Handle) (s : Sys)
    (hex : s.exited = false) (hg : s.goroutines[t]? = some (Goroutine.daClose todo)) :
    exec env s (List.replicate (todo.length + 1) t)
      = { s with goroutines := s.goroutines.set t Goroutine.daNil,
                 trace := s.trace ++ closeLoop todo } := by
  induction todo generalizing s with
  | nil =>
    have hstep := step_of_run env s t _ _ hex hg (by simp only [Goroutine.run]; rfl)
    simp only [List.append_nil] at hstep
    rw [List.length_nil, Nat.zero_add, List.replicate_one, exec_cons_some env _ _ _ _ hstep]
    simp only [exec, closeLoop, List.append_nil, hex]
  | cons c rest ih =>
    have hstep := step_of_run env s t _ _ hex hg (by simp only [Goroutine.run]; rfl)
    simp only [List.append_nil] at hstep
    rw [List.length_cons, List.replicate_succ, exec_cons_some env _ _ _ _ hstep]
    rw [ih
      { mux := s.mux, mu := s.mu, goroutines := s.goroutines.set t (Goroutine.daClose rest),
        trace := s.trace ++ [Event.clientClose c], exited := false }
      rfl (lookup_set_self _ _ _ _ hg)]
    simp only [List.set_set, closeLoop, List.append_assoc, List.cons_append, List.nil_append,
      hex]

/-- The shutdown goroutine executed without interleaving, up to `os.Exit`, has the effect of
the shutdown sequence `shutdown`. -/
theorem solo_shutdown (env : Env) (t : Nat) (s : Sys) (hex : s.exited = false)
    (hmu : s.mu = none) (hg : s.goroutines[t]? = some Goroutine.sdWait) :
    exec env s (t :: t :: t :: (List.replicate (s.mux.clients.length + 1) t ++ [t, t, t]))
      = { s with mux := (shutdown s.mux env.closeFails).1,
                 goroutines := s.goroutines.set t Goroutine.sdExit,
                 trace := s.trace ++ (shutdown s.mux env.closeFails).2 } := by
  have h1 := step_of_run env s t _ _ hex hg (by simp only [Goroutine.run]; rfl)
  simp only [List.append_nil] at h1
  have h2 := step_of_run env
    { mux := s.mux, mu := s.mu, goroutines := s.goroutines.set t Goroutine.daLock,
      trace := s.trace ++ [Event.log LogMsg.shuttingDown], exited := false } t _ _ rfl
    (lookup_set_self _ _ _ _ hg) (by simp only [Goroutine.run, hmu, if_true]; rfl)
  simp only [List.append_nil, List.set_set] at h2
  have h3 := step_of_run env
    { mux := s.mux, mu := some t, goroutines := s.goroutines.set t Goroutine.daRange,
      trace := s.trace ++ [Event.log LogMsg.shuttingDown], exited := false } t _ _ rfl
    (lookup_set_self _ _ _ _ hg) (by simp only [Goroutine.run]; rfl)
  simp only [List.append_nil, List.set_set] at h3
  have h4 := solo_daClose env t s.mux.clients
    { mux := s.mux, mu := some t,
      goroutines := s.goroutines.set t (Goroutine.daClose s.mux.clients),
      trace := s.trace ++ [Event.log LogMsg.shuttingDown], exited := false } rfl
    (lookup_set_self _ _ _ _ hg)
  simp only [List.set_set] at h4
  have h5 := step_of_run env
    { mux := s.mux, mu := some t, goroutines := s.goroutines.set t Goroutine.daNil,
      trace := (s.trace ++ [Event.log LogMsg.shuttingDown]) ++ closeLoop s.mux.clients,
      exited := false } t _ _ rfl
    (lookup_set_self _ _ _ _ hg) (by simp only [Goroutine.run]; rfl)
  simp only [List.append_nil, List.set_set] at h5
  have h6 := step_of_run env
    { mux := { s.mux with clients := [] }, mu := some t,
      goroutines := s.goroutines.set t Goroutine.daUnlock,
      trace := (s.trace ++ [Event.log LogMsg.shuttingDown]) ++ closeLoop s.mux.clients,
      exited := false } t _ _ rfl
    (lookup_set_self _ _ _ _ hg) (by simp only [Goroutine.run]; rfl)
  simp only [List.append_nil, List.set_set] at h6
  have h7 := step_of_run env
    { mux := { s.mux with clients := [] }, mu := none,
      goroutines := s.goroutines.set t Goroutine.sdCloseMud,
      trace := (s.trace ++ [Event.log LogMsg.shuttingDown]) ++ closeLoop s.mux.clients,
      exited := false } t _ _ rfl
    (lookup_set_self _ _ _ _ hg) (by simp only [Goroutine.run]; rfl)
  simp only [List.append_nil, List.set_set] at h7
  rw [exec_cons_some env _ _ _ _ h1, exec_cons_some env _ _ _ _ h2,
    exec_cons_some env _ _ _ _ h3, exec_append, h4, exec_cons_some env _ _ _ _ h5,
    exec_cons_some env _ _ _ _ h6, exec_cons_some env _ _ _ _ h7]
  simp only [exec, shutdown, disconnectAllClients, hmu, hex, List.append_assoc,
    List.cons_append, List.nil_append, List.singleton_append]

end MudMux
